import Mathlib

/-!
Verification of the rtcrs WebRTC stack (SDP codec, STUN codec, ICE agent)
against its natural-language specification.

The development shallowly embeds the Rust sources:
* the SDP codec of sdp/src (nom-based line parsers and the Display
  serializers) over lists of characters;
* the monolithic STUN codec of stun/src/lib.rs over lists of bytes,
  distinguishing parse errors from panics;
* the modular STUN attribute layer of stun/src/attribute;
* the ICE agent pieces of ice/src/lib.rs (transport parsing, the
  candidate grammar, the responder filter, remote-candidate ingestion).

Parsers are written in the executable style of the nom combinators the
sources use: a parser takes the input list and returns the parsed value
together with the unconsumed remainder, or fails.  Recursive repetition
combinators use an explicit fuel argument equal to the input length plus
one; one fuel unit is spent per iteration and every iteration of the
sources' combinators consumes at least one element (nom aborts on a
zero-consumption success, which the embedding mirrors), so the budget is
never exhausted on any input.
-/

namespace NomC

/-- Character-level parser, as used by the nom combinators of the SDP and
ICE crates: input in, value and remainder out, `none` on a parse error. -/
abbrev P (α : Type) : Type := List Char → Option (α × List Char)

/-- Sequencing of parsers (the implicit chaining inside nom's `tuple`). -/
def pbind (p : P α) (f : α → P β) : P β := fun input =>
  match p input with
  | none => none
  | some (a, rest) => f a rest

/-- A parser that consumes nothing and yields a fixed value. -/
def ppure (a : α) : P α := fun input => some (a, input)

/-- nom `map`. -/
def pmap (p : P α) (f : α → β) : P β := fun input =>
  match p input with
  | none => none
  | some (a, rest) => some (f a, rest)

/-- nom `map_res`: apply a fallible conversion to the parsed value. -/
def map_res (p : P α) (f : α → Option β) : P β := fun input =>
  match p input with
  | none => none
  | some (a, rest) =>
    match f a with
    | none => none
    | some b => some (b, rest)

/-- nom `tag` for strings: match a literal prefix. -/
def tag (t : List Char) : P (List Char) := fun input =>
  if t.isPrefixOf input then some (t, input.drop t.length) else none

/-- nom `char`: match one given character. -/
def charP (c : Char) : P Char := fun input =>
  match input with
  | [] => none
  | d :: rest => if d = c then some (c, rest) else none

/-- nom `one_of`: match one character from the given set. -/
def one_of (s : List Char) : P Char := fun input =>
  match input with
  | [] => none
  | d :: rest => if d ∈ s then some (d, rest) else none

/-- nom `none_of`: match one character outside the given set. -/
def none_of (s : List Char) : P Char := fun input =>
  match input with
  | [] => none
  | d :: rest => if d ∈ s then none else some (d, rest)

/-- nom `digit1`: one or more ASCII digits. -/
def digit1 : P (List Char) := fun input =>
  match input.takeWhile Char.isDigit with
  | [] => none
  | ds => some (ds, input.dropWhile Char.isDigit)

/-- nom `take_till1`: longest nonempty prefix on which `f` is false. -/
def take_till1 (f : Char → Bool) : P (List Char) := fun input =>
  match input.takeWhile (fun c => !f c) with
  | [] => none
  | pre => some (pre, input.dropWhile (fun c => !f c))

/-- nom `line_ending`: match `\n` or `\r\n`. -/
def line_ending : P (List Char) := fun input =>
  match input with
  | '\n' :: rest => some (['\n'], rest)
  | '\r' :: '\n' :: rest => some (['\r', '\n'], rest)
  | _ => none

/-- nom `not_line_ending` (complete): consume up to the first `\r` or
`\n`; a stray `\r` not followed by `\n` is an error. -/
def not_line_ending : P (List Char) := fun input =>
  let pre := input.takeWhile (fun c => c ≠ '\r' ∧ c ≠ '\n')
  let post := input.dropWhile (fun c => c ≠ '\r' ∧ c ≠ '\n')
  match post with
  | [] => some (pre, [])
  | '\r' :: '\n' :: _ => some (pre, post)
  | '\r' :: _ => none
  | _ => some (pre, post)

/-- nom `opt`. -/
def opt (p : P α) : P (Option α) := fun input =>
  match p input with
  | none => some (none, input)
  | some (a, rest) => some (some a, rest)

/-- nom `alt` restricted to two branches; wider alternations nest it. -/
def alt (p q : P α) : P α := fun input =>
  match p input with
  | none => q input
  | some r => some r

/-- nom `preceded`. -/
def preceded (p : P α) (q : P β) : P β := pbind p fun _ => q

/-- nom `terminated`. -/
def terminated (p : P α) (q : P β) : P α :=
  pbind p fun a => pmap q fun _ => a

/-- nom `delimited`. -/
def delimited (p : P α) (q : P β) (r : P γ) : P β :=
  pbind p fun _ => pbind q fun b => pmap r fun _ => b

/-- nom `pair`. -/
def pair (p : P α) (q : P β) : P (α × β) :=
  pbind p fun a => pmap q fun b => (a, b)

/-- nom `separated_pair`. -/
def separated_pair (p : P α) (sep : P γ) (q : P β) : P (α × β) :=
  pbind p fun a => preceded sep (pmap q fun b => (a, b))

/-- nom `all_consuming`. -/
def all_consuming (p : P α) : P α := fun input =>
  match p input with
  | some (a, []) => some (a, [])
  | _ => none

/-- nom `recognize`: run a parser and return the consumed slice. -/
def recognize (p : P α) : P (List Char) := fun input =>
  match p input with
  | none => none
  | some (_, rest) => some (input.take (input.length - rest.length), rest)

/-- Fuel-indexed body of nom `many0`.  nom's `many0` loops until the inner
parser fails, and aborts the whole parse if an iteration succeeds without
consuming input. -/
def many0F (p : P α) : Nat → P (List α)
  | 0 => fun _ => none
  | fuel + 1 => fun input =>
    match p input with
    | none => some ([], input)
    | some (a, rest) =>
      if rest.length < input.length then
        match many0F p fuel rest with
        | none => none
        | some (as, rem) => some (a :: as, rem)
      else none

/-- nom `many0`. -/
def many0 (p : P α) : P (List α) := fun input => many0F p (input.length + 1) input

/-- nom `many1`: one occurrence followed by a `many0`-style loop. -/
def many1 (p : P α) : P (List α) :=
  pbind p fun a => fun rest =>
    match many0 p rest with
    | none => none
    | some (as, rem) => some (a :: as, rem)

/-- nom `many_m_n`: between `mn` and `mx` occurrences, greedy, with the
same zero-consumption abort as `many0`. -/
def many_m_n (mn : Nat) (mx : Nat) (p : P α) : P (List α) :=
  match mx with
  | 0 => fun input => if mn = 0 then some ([], input) else none
  | mx' + 1 => fun input =>
    match p input with
    | none => if mn = 0 then some ([], input) else none
    | some (a, rest) =>
      if rest.length < input.length then
        match many_m_n (mn - 1) mx' p rest with
        | none => none
        | some (as, rem) => some (a :: as, rem)
      else none

/-- nom `count`: exactly `n` occurrences. -/
def countP (p : P α) : Nat → P (List α)
  | 0 => ppure []
  | n + 1 =>
    pbind p fun a => pmap (countP p n) fun as => a :: as

end NomC

namespace NomC

theorem takeWhile_append_all {f : Char → Bool} {s : List Char} (r : List Char)
    (hall : ∀ c ∈ s, f c = true) (hr : ∀ c t, r = c :: t → f c = false) :
    (s ++ r).takeWhile f = s := by
  induction s with
  | nil =>
    cases r with
    | nil => rfl
    | cons c t => simp [List.takeWhile, hr c t rfl]
  | cons c s ih =>
    have hc := hall c (by simp)
    simp only [List.cons_append, List.takeWhile, hc]
    have := ih (fun c hc => hall c (by simp [hc]))
    simp [this]

theorem dropWhile_append_all {f : Char → Bool} {s : List Char} (r : List Char)
    (hall : ∀ c ∈ s, f c = true) (hr : ∀ c t, r = c :: t → f c = false) :
    (s ++ r).dropWhile f = r := by
  induction s with
  | nil =>
    cases r with
    | nil => rfl
    | cons c t => simp [List.dropWhile, hr c t rfl]
  | cons c s ih =>
    have hc := hall c (by simp)
    simp only [List.cons_append, List.dropWhile, hc]
    exact ih (fun c hc => hall c (by simp [hc]))

theorem tag_consume (t r : List Char) : tag t (t ++ r) = some (t, r) := by
  have hpre : t.isPrefixOf (t ++ r) = true :=
    List.isPrefixOf_iff_prefix.mpr (List.prefix_append t r)
  simp [tag, hpre]

theorem tag_fail_head {c d : Char} (t i : List Char) (h : c ≠ d) :
    tag (c :: t) (d :: i) = none := by
  have : (c :: t).isPrefixOf (d :: i) = false := by
    simp [List.isPrefixOf, h]
  simp [tag, this]

theorem tag_fail_nil (c : Char) (t : List Char) : tag (c :: t) [] = none := by
  simp [tag, List.isPrefixOf]

theorem charP_consume (c : Char) (r : List Char) : charP c (c :: r) = some (c, r) := by
  simp [charP]

theorem charP_fail {c d : Char} (r : List Char) (h : d ≠ c) :
    charP c (d :: r) = none := by
  simp [charP, h]

theorem charP_fail_nil (c : Char) : charP c [] = none := rfl

theorem one_of_consume {c : Char} (s : List Char) (r : List Char) (h : c ∈ s) :
    one_of s (c :: r) = some (c, r) := by
  simp [one_of, h]

theorem one_of_fail {c : Char} (s : List Char) (r : List Char) (h : c ∉ s) :
    one_of s (c :: r) = none := by
  simp [one_of, h]

theorem one_of_fail_nil (s : List Char) : one_of s [] = none := rfl

theorem digit1_consume {s : List Char} (r : List Char) (hne : s ≠ [])
    (hall : ∀ c ∈ s, c.isDigit = true)
    (hr : ∀ c t, r = c :: t → c.isDigit = false) :
    digit1 (s ++ r) = some (s, r) := by
  have h1 := takeWhile_append_all (f := Char.isDigit) r hall hr
  have h2 := dropWhile_append_all (f := Char.isDigit) r hall hr
  unfold digit1
  rw [h1, h2]
  cases s with
  | nil => exact absurd rfl hne
  | cons c t => simp

theorem digit1_fail {i : List Char}
    (h : ∀ c t, i = c :: t → c.isDigit = false) : digit1 i = none := by
  unfold digit1
  cases i with
  | nil => rfl
  | cons c t => simp [List.takeWhile, h c t rfl]

theorem take_till1_consume {f : Char → Bool} {s : List Char} (r : List Char)
    (hne : s ≠ []) (hall : ∀ c ∈ s, f c = false)
    (hr : ∀ c t, r = c :: t → f c = true) :
    take_till1 f (s ++ r) = some (s, r) := by
  have h1 := @takeWhile_append_all (fun c => !f c) s r
    (fun c hc => by simp [hall c hc]) (fun c t ht => by simp [hr c t ht])
  have h2 := @dropWhile_append_all (fun c => !f c) s r
    (fun c hc => by simp [hall c hc]) (fun c t ht => by simp [hr c t ht])
  unfold take_till1
  rw [h1, h2]
  cases s with
  | nil => exact absurd rfl hne
  | cons c t => simp

theorem take_till1_fail {f : Char → Bool} {i : List Char}
    (h : ∀ c t, i = c :: t → f c = true) : take_till1 f i = none := by
  unfold take_till1
  cases i with
  | nil => rfl
  | cons c t => simp [List.takeWhile, h c t rfl]

theorem line_ending_crlf (r : List Char) :
    line_ending ('\r' :: '\n' :: r) = some (['\r', '\n'], r) := rfl

theorem not_line_ending_consume {s : List Char} (r : List Char)
    (hall : ∀ c ∈ s, c ≠ '\r' ∧ c ≠ '\n') :
    not_line_ending (s ++ '\r' :: '\n' :: r) = some (s, '\r' :: '\n' :: r) := by
  have hstop : ∀ c t, ('\r' :: '\n' :: r) = c :: t →
      (decide (c ≠ '\r' ∧ c ≠ '\n')) = false := by
    intro c t h
    cases h
    simp
  have hall' : ∀ c ∈ s, (decide (c ≠ '\r' ∧ c ≠ '\n')) = true := by
    intro c hc
    simpa using hall c hc
  have h1 := takeWhile_append_all (f := fun c => decide (c ≠ '\r' ∧ c ≠ '\n'))
    ('\r' :: '\n' :: r) hall' hstop
  have h2 := dropWhile_append_all (f := fun c => decide (c ≠ '\r' ∧ c ≠ '\n'))
    ('\r' :: '\n' :: r) hall' hstop
  unfold not_line_ending
  simp only at h1 h2
  rw [h1, h2]
  simp

end NomC

namespace NomC

theorem pbind_some {p : P α} {f : α → P β} {input : List Char} {a : α} {r : List Char}
    (h : p input = some (a, r)) : pbind p f input = f a r := by
  simp [pbind, h]

theorem pbind_none {p : P α} {f : α → P β} {input : List Char}
    (h : p input = none) : pbind p f input = none := by
  simp [pbind, h]

theorem pmap_some {p : P α} {f : α → β} {input : List Char} {a : α} {r : List Char}
    (h : p input = some (a, r)) : pmap p f input = some (f a, r) := by
  simp [pmap, h]

theorem pmap_none {p : P α} {f : α → β} {input : List Char}
    (h : p input = none) : pmap p f input = none := by
  simp [pmap, h]

theorem map_res_some {p : P α} {f : α → Option β} {input : List Char} {a : α}
    {r : List Char} {b : β} (h : p input = some (a, r)) (hf : f a = some b) :
    map_res p f input = some (b, r) := by
  simp [map_res, h, hf]

theorem map_res_fail {p : P α} {f : α → Option β} {input : List Char} {a : α}
    {r : List Char} (h : p input = some (a, r)) (hf : f a = none) :
    map_res p f input = none := by
  simp [map_res, h, hf]

theorem map_res_none {p : P α} {f : α → Option β} {input : List Char}
    (h : p input = none) : map_res p f input = none := by
  simp [map_res, h]

theorem opt_some {p : P α} {input : List Char} {a : α} {r : List Char}
    (h : p input = some (a, r)) : opt p input = some (some a, r) := by
  simp [opt, h]

theorem opt_none {p : P α} {input : List Char}
    (h : p input = none) : opt p input = some (none, input) := by
  simp [opt, h]

theorem alt_first {p q : P α} {input : List Char} {x : α × List Char}
    (h : p input = some x) : alt p q input = some x := by
  simp [alt, h]

theorem alt_second {p q : P α} {input : List Char}
    (h : p input = none) : alt p q input = q input := by
  simp [alt, h]

theorem many0F_fuel_irrel {p : P α} :
    ∀ f1 f2 input, input.length < f1 → input.length < f2 →
      many0F p f1 input = many0F p f2 input := by
  intro f1
  induction f1 with
  | zero => intro f2 input h1; omega
  | succ f1 ih =>
    intro f2 input h1 h2
    cases f2 with
    | zero => omega
    | succ f2 =>
      simp only [many0F]
      cases hp : p input with
      | none => rfl
      | some ar =>
        obtain ⟨a, rest⟩ := ar
        by_cases hlt : rest.length < input.length
        · simp only [hlt, if_true]
          rw [ih f2 rest (by omega) (by omega)]
        · simp [hlt]

theorem many0_eq_none {p : P α} {input : List Char}
    (h : p input = none) : many0 p input = some ([], input) := by
  simp [many0, many0F, h]

theorem many0_step {p : P α} {input : List Char} {a : α} {rest : List Char}
    (h : p input = some (a, rest)) (hlt : rest.length < input.length) :
    many0 p input =
      match many0 p rest with
      | none => none
      | some (as, rem) => some (a :: as, rem) := by
  unfold many0
  conv_lhs => rw [show input.length + 1 = (input.length) + 1 from rfl]
  simp only [many0F, h, hlt, if_true]
  rw [many0F_fuel_irrel input.length (rest.length + 1) rest (by omega) (by omega)]
  rfl

/-- Concatenation of the serializations of a list of values. -/
def catPrint (prnt : α → List Char) (xs : List α) : List Char :=
  xs.foldr (fun x acc => prnt x ++ acc) []

theorem catPrint_nil (prnt : α → List Char) : catPrint prnt [] = [] := rfl

theorem catPrint_cons (prnt : α → List Char) (x : α) (xs : List α) :
    catPrint prnt (x :: xs) = prnt x ++ catPrint prnt xs := rfl

theorem many0_consume_list {p : P α} (prnt : α → List Char) (xs : List α)
    (rest : List Char)
    (hel : ∀ x ∈ xs, ∀ r, p (prnt x ++ r) = some (x, r))
    (hne : ∀ x ∈ xs, prnt x ≠ [])
    (hfail : p rest = none) :
    many0 p (catPrint prnt xs ++ rest) = some (xs, rest) := by
  induction xs with
  | nil => simpa [catPrint] using many0_eq_none hfail
  | cons x xs ih =>
    rw [catPrint_cons, List.append_assoc]
    have hx := hel x (by simp) (catPrint prnt xs ++ rest)
    have hxe : prnt x ≠ [] := hne x (by simp)
    have hlt : (catPrint prnt xs ++ rest).length <
        (prnt x ++ (catPrint prnt xs ++ rest)).length := by
      simp only [List.length_append]
      cases hpx : prnt x with
      | nil => exact absurd hpx hxe
      | cons c t => simp
    rw [many0_step hx hlt,
      ih (fun y hy => hel y (by simp [hy])) (fun y hy => hne y (by simp [hy]))]

theorem many1_consume_list {p : P α} (prnt : α → List Char) (x : α) (xs : List α)
    (rest : List Char)
    (hel : ∀ y ∈ x :: xs, ∀ r, p (prnt y ++ r) = some (y, r))
    (hne : ∀ y ∈ x :: xs, prnt y ≠ [])
    (hfail : p rest = none) :
    many1 p (catPrint prnt (x :: xs) ++ rest) = some (x :: xs, rest) := by
  rw [catPrint_cons, List.append_assoc]
  unfold many1
  rw [pbind_some (hel x (by simp) (catPrint prnt xs ++ rest))]
  rw [many0_consume_list prnt xs rest (fun y hy => hel y (by simp [hy]))
    (fun y hy => hne y (by simp [hy])) hfail]

end NomC

namespace Numeral

/-- The character of a decimal digit. -/
def digitChar (d : Nat) : Char := Char.ofNat (48 + d)

/-- Decimal digits of a natural number, least significant first, with a
fuel argument for structural recursion; a fuel of `n` itself is always
sufficient since the value shrinks by a factor of ten per step. -/
def natToDigitsRevF : Nat → Nat → List Nat
  | 0, _ => []
  | _ + 1, 0 => []
  | fuel + 1, n + 1 => ((n + 1) % 10) :: natToDigitsRevF fuel ((n + 1) / 10)

/-- Decimal digits of a natural number, least significant first. -/
def natToDigitsRev (n : Nat) : List Nat := natToDigitsRevF n n

/-- Value of a digit list, least significant first. -/
def valRev : List Nat → Nat
  | [] => 0
  | d :: ds => d + 10 * valRev ds

/-- Decimal rendering of a natural number, as Rust's `Display` for the
unsigned integer types produces it. -/
def natPrint (n : Nat) : List Char :=
  if n = 0 then ['0'] else ((natToDigitsRev n).map digitChar).reverse

/-- Decimal rendering of an integer, as Rust's `Display` for the signed
integer types produces it: a minus sign for negatives, no plus sign. -/
def intPrint (i : Int) : List Char :=
  if i < 0 then '-' :: natPrint i.natAbs else natPrint i.toNat

/-- Numeric value of a digit string, most significant first; this is the
accumulation `from_str_radix(s, 10)` performs. -/
def digitsVal (s : List Char) : Nat :=
  s.foldl (fun a c => 10 * a + (c.toNat - 48)) 0

theorem valRev_natToDigitsRevF :
    ∀ fuel n, n ≤ fuel → valRev (natToDigitsRevF fuel n) = n := by
  intro fuel
  induction fuel with
  | zero => intro n h; interval_cases n; rfl
  | succ fuel ih =>
    intro n h
    cases n with
    | zero => rfl
    | succ m =>
      have hdiv : (m + 1) / 10 ≤ fuel := by
        have := Nat.div_lt_self (Nat.succ_pos m) (show 1 < 10 by omega)
        omega
      rw [natToDigitsRevF, valRev, ih _ hdiv]
      omega

theorem valRev_natToDigitsRev (n : Nat) : valRev (natToDigitsRev n) = n :=
  valRev_natToDigitsRevF n n le_rfl

theorem natToDigitsRevF_lt_ten :
    ∀ fuel n d, d ∈ natToDigitsRevF fuel n → d < 10 := by
  intro fuel
  induction fuel with
  | zero => intro n d hd; simp [natToDigitsRevF] at hd
  | succ fuel ih =>
    intro n d hd
    cases n with
    | zero => simp [natToDigitsRevF] at hd
    | succ m =>
      rw [natToDigitsRevF] at hd
      rcases List.mem_cons.mp hd with h | h
      · subst h; exact Nat.mod_lt _ (by omega)
      · exact ih _ d h

theorem natToDigitsRev_lt_ten (n : Nat) : ∀ d ∈ natToDigitsRev n, d < 10 :=
  natToDigitsRevF_lt_ten n n

theorem digitChar_isDigit {d : Nat} (h : d < 10) : (digitChar d).isDigit = true := by
  interval_cases d <;> decide

theorem digitChar_toNat {d : Nat} (h : d < 10) : (digitChar d).toNat = 48 + d := by
  interval_cases d <;> decide

theorem natPrint_ne_nil (n : Nat) : natPrint n ≠ [] := by
  unfold natPrint
  cases n with
  | zero => simp
  | succ m => simp [natToDigitsRev, natToDigitsRevF]

theorem natPrint_all_digits (n : Nat) : ∀ c ∈ natPrint n, c.isDigit = true := by
  unfold natPrint
  by_cases h : n = 0
  · simp only [h, if_true]
    intro c hc
    simp at hc
    subst hc
    decide
  · simp only [h, if_false]
    intro c hc
    rw [List.mem_reverse] at hc
    obtain ⟨d, hd, rfl⟩ := List.mem_map.mp hc
    exact digitChar_isDigit (natToDigitsRev_lt_ten n d hd)

theorem digitsVal_append_digit (l : List Char) (c : Char) :
    digitsVal (l ++ [c]) = 10 * digitsVal l + (c.toNat - 48) := by
  simp [digitsVal, List.foldl_append]

theorem digitsVal_rev_map (ds : List Nat) (h : ∀ d ∈ ds, d < 10) :
    digitsVal ((ds.map digitChar).reverse) = valRev ds := by
  induction ds with
  | nil => rfl
  | cons d ds ih =>
    simp only [List.map_cons, List.reverse_cons]
    rw [digitsVal_append_digit, ih (fun e he => h e (by simp [he])),
      digitChar_toNat (h d (by simp)), valRev]
    omega

theorem digitsVal_natPrint (n : Nat) : digitsVal (natPrint n) = n := by
  unfold natPrint
  by_cases h : n = 0
  · simp [h, digitsVal]
  · simp only [h, if_false]
    rw [digitsVal_rev_map _ (natToDigitsRev_lt_ten n), valRev_natToDigitsRev]

end Numeral

namespace Sdp

open NomC Numeral

/-- Rust's `char::is_whitespace` (the Unicode White_Space property), used
by the value-attribute name parser. -/
def rustWhitespace : List Char :=
  ['\x09', '\x0a', '\x0b', '\x0c', '\x0d', ' ', '\u0085', '\u00A0',
   '\u1680', '\u2000', '\u2001', '\u2002', '\u2003', '\u2004', '\u2005',
   '\u2006', '\u2007', '\u2008', '\u2009', '\u200A', '\u2028', '\u2029',
   '\u202F', '\u205F', '\u3000']

/-- Rust `char::is_whitespace` as a Boolean predicate. -/
def isRustWhitespace (c : Char) : Bool := c ∈ rustWhitespace

/-- The CRLF terminator every SDP line is written with. -/
def crlf : List Char := ['\r', '\n']

/-- Protocol version, `v=` line; `Version(pub u8)` in version.rs. -/
structure Version where
  v : Nat
deriving DecidableEq, Repr

/-- Origin, `o=` line; origin.rs. -/
structure Origin where
  username : List Char
  session_id : Nat
  session_version : Nat
  network_type : List Char
  address_type : List Char
  unicast_address : List Char
deriving DecidableEq, Repr

/-- Session name, `s=` line; session_name.rs. -/
structure SessionName where
  name : List Char
deriving DecidableEq, Repr

/-- Session information, `i=` line; session_information.rs. -/
structure SessionInformation where
  info : List Char
deriving DecidableEq, Repr

/-- URI, `u=` line; uri.rs. -/
structure URI where
  uri : List Char
deriving DecidableEq, Repr

/-- Email address, `e=` line; email_address.rs. -/
structure EmailAddress where
  email : List Char
deriving DecidableEq, Repr

/-- Phone number, `p=` line; phone_number.rs. -/
structure PhoneNumber where
  phone : List Char
deriving DecidableEq, Repr

/-- Connection data, `c=` line; connection.rs. -/
structure Connection where
  network_type : List Char
  address_type : List Char
  connection_address : List Char
deriving DecidableEq, Repr

/-- Bandwidth type; bandwidth.rs. -/
inductive BandwidthType where
  | CT : BandwidthType
  | AS : BandwidthType
  | Experimental : List Char → BandwidthType
deriving DecidableEq, Repr

/-- Bandwidth, `b=` line; bandwidth.rs. -/
structure Bandwidth where
  typ : BandwidthType
  value : Nat
deriving DecidableEq, Repr

/-- Timing, `t=` line; time_description.rs. -/
structure Timing where
  start_time : Nat
  stop_time : Nat
deriving DecidableEq, Repr

/-- Repeat entry, `r=` line; `Repeat` in time_description.rs. -/
structure RepeatTime where
  interval : Nat
  active_duration : Nat
  offsets : List Nat
deriving DecidableEq, Repr

/-- Time description: a `t=` line and its `r=` lines; time_description.rs. -/
structure TimeDescription where
  timing : Timing
  repeat_times : List RepeatTime
deriving DecidableEq, Repr

/-- Time-zone adjustment; time_zone.rs.  `time` is `u64`, `offset` is a
signed number of seconds (`i64`). -/
structure Adjustment where
  time : Nat
  offset : Int
deriving DecidableEq, Repr

/-- Time zone, `z=` line; time_zone.rs. -/
structure TimeZone where
  adjustments : List Adjustment
deriving DecidableEq, Repr

/-- Encryption-key retrieval method; encryption_key.rs. -/
inductive RetrievalMethod where
  | base64 : RetrievalMethod
  | clear : RetrievalMethod
  | prompt : RetrievalMethod
  | uri : RetrievalMethod
deriving DecidableEq, Repr

/-- Encryption key, `k=` line; encryption_key.rs. -/
structure EncryptionKey where
  method : RetrievalMethod
  data : Option (List Char)
deriving DecidableEq, Repr

/-- Session or media attribute, `a=` line; attribute.rs. -/
inductive Attribute where
  | property : List Char → Attribute
  | value : List Char → List Char → Attribute
deriving DecidableEq, Repr

/-- Media type; media_description.rs. -/
inductive MediaType where
  | application : MediaType
  | audio : MediaType
  | message : MediaType
  | text : MediaType
  | video : MediaType
deriving DecidableEq, Repr

/-- Media line, `m=`; media_description.rs (`port` is `u64` there). -/
structure Media where
  typ : MediaType
  port : Nat
  protocol : List Char
  format : List Char
deriving DecidableEq, Repr

/-- Media description: an `m=` line and its subordinate lines;
media_description.rs. -/
structure MediaDescription where
  media : Media
  title : Option SessionInformation
  connection : Option Connection
  bandwidths : List Bandwidth
  encryption_key : Option EncryptionKey
  attributes : List Attribute
deriving DecidableEq, Repr

/-- Session description; session_description.rs. -/
structure SessionDescription where
  version : Version
  origin : Origin
  session_name : SessionName
  session_information : Option SessionInformation
  uri : Option URI
  email_addresses : List EmailAddress
  phone_numbers : List PhoneNumber
  connection : Option Connection
  bandwidths : List Bandwidth
  time_description : TimeDescription
  time_zone : Option TimeZone
  encryption_key : Option EncryptionKey
  attributes : List Attribute
  media_descriptions : List MediaDescription
deriving DecidableEq, Repr

/-- `Attribute::property`. -/
def Attribute.propertyOf (p : List Char) : Attribute := .property p

/-- `Attribute::value`. -/
def Attribute.valueOf (k v : List Char) : Attribute := .value k v

/-- `TimeDescription::base`. -/
def TimeDescription.base (timing : Timing) : TimeDescription := ⟨timing, []⟩

/-- `TimeDescription::with_repeat_times`. -/
def TimeDescription.with_repeat_times (td : TimeDescription)
    (repeat_times : List RepeatTime) : TimeDescription :=
  { td with repeat_times := repeat_times }

/-- `TimeDescription::and_repeat_time`. -/
def TimeDescription.and_repeat_time (td : TimeDescription)
    (repeat_time : RepeatTime) : TimeDescription :=
  { td with repeat_times := td.repeat_times ++ [repeat_time] }

/-- `MediaDescription::base`. -/
def MediaDescription.base (media : Media) : MediaDescription :=
  ⟨media, none, none, [], none, []⟩

/-- `MediaDescription::with_title`. -/
def MediaDescription.with_title (md : MediaDescription)
    (title : SessionInformation) : MediaDescription :=
  { md with title := some title }

/-- `MediaDescription::with_connection`. -/
def MediaDescription.with_connection (md : MediaDescription)
    (connection : Connection) : MediaDescription :=
  { md with connection := some connection }

/-- `MediaDescription::with_bandwidths`. -/
def MediaDescription.with_bandwidths (md : MediaDescription)
    (bandwidths : List Bandwidth) : MediaDescription :=
  { md with bandwidths := bandwidths }

/-- `MediaDescription::with_encryption_key`. -/
def MediaDescription.with_encryption_key (md : MediaDescription)
    (encryption_key : EncryptionKey) : MediaDescription :=
  { md with encryption_key := some encryption_key }

/-- `MediaDescription::with_attributes`. -/
def MediaDescription.with_attributes (md : MediaDescription)
    (attributes : List Attribute) : MediaDescription :=
  { md with attributes := attributes }

/-- `MediaDescription::and_attribute`. -/
def MediaDescription.and_attribute (md : MediaDescription)
    (attr : Attribute) : MediaDescription :=
  { md with attributes := md.attributes ++ [attr] }

/-- `SessionDescription::base`. -/
def SessionDescription.base (version : Version) (origin : Origin)
    (session_name : SessionName) (time_description : TimeDescription) :
    SessionDescription :=
  ⟨version, origin, session_name, none, none, [], [], none, [],
    time_description, none, none, [], []⟩

/-- `SessionDescription::with_connection`. -/
def SessionDescription.with_connection (sd : SessionDescription)
    (connection : Connection) : SessionDescription :=
  { sd with connection := some connection }

/-- `SessionDescription::with_attributes`. -/
def SessionDescription.with_attributes (sd : SessionDescription)
    (attributes : List Attribute) : SessionDescription :=
  { sd with attributes := attributes }

/-- `SessionDescription::and_attribute`. -/
def SessionDescription.and_attribute (sd : SessionDescription)
    (attr : Attribute) : SessionDescription :=
  { sd with attributes := sd.attributes ++ [attr] }

/-- `SessionDescription::with_media_descriptions`. -/
def SessionDescription.with_media_descriptions (sd : SessionDescription)
    (media_descriptions : List MediaDescription) : SessionDescription :=
  { sd with media_descriptions := media_descriptions }

/-- `SessionDescription::and_media_description`. -/
def SessionDescription.and_media_description (sd : SessionDescription)
    (media_description : MediaDescription) : SessionDescription :=
  { sd with media_descriptions := sd.media_descriptions ++ [media_description] }

end Sdp

namespace Sdp

open NomC Numeral

/-- Serialization of an optional component: `Display` writes the empty
string when the component is absent. -/
def optPrint (prnt : α → List Char) : Option α → List Char
  | none => []
  | some x => prnt x

/-- `Display for Version`: `v=<n>` and CRLF. -/
def Version.print (x : Version) : List Char :=
  ['v', '='] ++ natPrint x.v ++ crlf

/-- `Display for Origin`: `o=<username> <sess-id> <sess-version> <nettype>
<addrtype> <unicast-address>` and CRLF. -/
def Origin.print (x : Origin) : List Char :=
  ['o', '='] ++ x.username ++ [' '] ++ natPrint x.session_id ++ [' '] ++
    natPrint x.session_version ++ [' '] ++ x.network_type ++ [' '] ++
    x.address_type ++ [' '] ++ x.unicast_address ++ crlf

/-- `Display for SessionName`: `s=<name>` and CRLF. -/
def SessionName.print (x : SessionName) : List Char :=
  ['s', '='] ++ x.name ++ crlf

/-- `Display for SessionInformation`: `i=<info>` and CRLF. -/
def SessionInformation.print (x : SessionInformation) : List Char :=
  ['i', '='] ++ x.info ++ crlf

/-- `Display for URI`: `u=<uri>` and CRLF. -/
def URI.print (x : URI) : List Char :=
  ['u', '='] ++ x.uri ++ crlf

/-- `Display for EmailAddress`: `e=<email>` and CRLF. -/
def EmailAddress.print (x : EmailAddress) : List Char :=
  ['e', '='] ++ x.email ++ crlf

/-- `Display for PhoneNumber`: `p=<phone>` and CRLF. -/
def PhoneNumber.print (x : PhoneNumber) : List Char :=
  ['p', '='] ++ x.phone ++ crlf

/-- `Display for Connection`: `c=<nettype> <addrtype> <connection-address>`
and CRLF. -/
def Connection.print (x : Connection) : List Char :=
  ['c', '='] ++ x.network_type ++ [' '] ++ x.address_type ++ [' '] ++
    x.connection_address ++ crlf

/-- `Display for BandwidthType`: the Debug names for `CT` and `AS`, and
`X-` before the payload of `Experimental`. -/
def BandwidthType.print : BandwidthType → List Char
  | .CT => ['C', 'T']
  | .AS => ['A', 'S']
  | .Experimental x => ['X', '-'] ++ x

/-- `Display for Bandwidth`: `b=<bwtype>:<bandwidth>` and CRLF. -/
def Bandwidth.print (x : Bandwidth) : List Char :=
  ['b', '='] ++ x.typ.print ++ [':'] ++ natPrint x.value ++ crlf

/-- `Display for Timing`: `t=<start-time> <stop-time>` and CRLF. -/
def Timing.print (x : Timing) : List Char :=
  ['t', '='] ++ natPrint x.start_time ++ [' '] ++ natPrint x.stop_time ++ crlf

/-- `Display for Repeat`: `r=<interval> <duration>` then one space-prefixed
offset per entry, and CRLF. -/
def RepeatTime.print (x : RepeatTime) : List Char :=
  ['r', '='] ++ natPrint x.interval ++ [' '] ++ natPrint x.active_duration ++
    catPrint (fun o => ' ' :: natPrint o) x.offsets ++ crlf

/-- `Display for TimeDescription`: the timing line followed by the repeat
lines. -/
def TimeDescription.print (x : TimeDescription) : List Char :=
  x.timing.print ++ catPrint RepeatTime.print x.repeat_times

/-- `Display for Adjustment`: the time, a space, and the offset rendered as
whole hours — `offset / 3600` (Rust `i64` division truncates toward zero)
with an `h` suffix when that quotient is nonzero. -/
def Adjustment.print (x : Adjustment) : List Char :=
  let offset_hours : Int := x.offset.tdiv 3600
  natPrint x.time ++ [' '] ++ intPrint offset_hours ++
    (if offset_hours = 0 then [] else ['h'])

/-- `Display for TimeZone`: `z=` and the space-separated adjustments, and
CRLF.  An empty adjustment list makes the Rust `Display` return a
formatting error (so `to_string` panics); serialization is only defined
on nonempty lists. -/
def TimeZone.print (x : TimeZone) : List Char :=
  match x.adjustments with
  | [] => []
  | a :: rest =>
    ['z', '='] ++ a.print ++ catPrint (fun b => ' ' :: Adjustment.print b) rest ++ crlf

/-- `Display for RetrievalMethod`. -/
def RetrievalMethod.print : RetrievalMethod → List Char
  | .base64 => ['b', 'a', 's', 'e', '6', '4']
  | .clear => ['c', 'l', 'e', 'a', 'r']
  | .prompt => ['p', 'r', 'o', 'm', 'p', 't']
  | .uri => ['u', 'r', 'i']

/-- `Display for EncryptionKey`: `k=<method>` with `:<data>` when data is
present, and CRLF. -/
def EncryptionKey.print (x : EncryptionKey) : List Char :=
  ['k', '='] ++ x.method.print ++
    (match x.data with
     | some s => [':'] ++ s
     | none => []) ++ crlf

/-- `Display for Attribute`: `a=<name>` or `a=<name>:<value>`, and CRLF. -/
def Attribute.print : Attribute → List Char
  | .property p => ['a', '='] ++ p ++ crlf
  | .value k v => ['a', '='] ++ k ++ [':'] ++ v ++ crlf

/-- `Display for MediaType`. -/
def MediaType.print : MediaType → List Char
  | .application => ['a', 'p', 'p', 'l', 'i', 'c', 'a', 't', 'i', 'o', 'n']
  | .audio => ['a', 'u', 'd', 'i', 'o']
  | .message => ['m', 'e', 's', 's', 'a', 'g', 'e']
  | .text => ['t', 'e', 'x', 't']
  | .video => ['v', 'i', 'd', 'e', 'o']

/-- `Display for Media`: `m=<media> <port> <proto> <fmt>` and CRLF. -/
def Media.print (x : Media) : List Char :=
  ['m', '='] ++ x.typ.print ++ [' '] ++ natPrint x.port ++ [' '] ++
    x.protocol ++ [' '] ++ x.format ++ crlf

/-- `Display for MediaDescription`: the `m=` line and the optional or
repeated subordinate lines, in grammar order. -/
def MediaDescription.print (x : MediaDescription) : List Char :=
  x.media.print ++
    (optPrint SessionInformation.print x.title ++
      (optPrint Connection.print x.connection ++
        (catPrint Bandwidth.print x.bandwidths ++
          (optPrint EncryptionKey.print x.encryption_key ++
            catPrint Attribute.print x.attributes))))

/-- `Display for SessionDescription`: every section in grammar order. -/
def SessionDescription.print (x : SessionDescription) : List Char :=
  x.version.print ++
    (x.origin.print ++
      (x.session_name.print ++
        (optPrint SessionInformation.print x.session_information ++
          (optPrint URI.print x.uri ++
            (catPrint EmailAddress.print x.email_addresses ++
              (catPrint PhoneNumber.print x.phone_numbers ++
                (optPrint Connection.print x.connection ++
                  (catPrint Bandwidth.print x.bandwidths ++
                    (x.time_description.print ++
                      (optPrint TimeZone.print x.time_zone ++
                        (optPrint EncryptionKey.print x.encryption_key ++
                          (catPrint Attribute.print x.attributes ++
                            catPrint MediaDescription.print x.media_descriptions))))))))))))

end Sdp

namespace Sdp

open NomC Numeral

/-- Parser for the `v=` line; `version` in version.rs. -/
def version : P Version :=
  pmap (delimited (tag ['v', '=']) digit1 line_ending) fun s => ⟨digitsVal s⟩

/-- Parser for the `o=` line; `origin` in origin.rs. -/
def origin : P Origin :=
  pbind (preceded (tag ['o', '=']) (take_till1 fun c => c == ' ')) fun username =>
  pbind (preceded (tag [' ']) digit1) fun sid =>
  pbind (preceded (tag [' ']) digit1) fun sver =>
  pbind (preceded (tag [' ']) (take_till1 fun c => c == ' ')) fun ntype =>
  pbind (preceded (tag [' ']) (take_till1 fun c => c == ' ')) fun atype =>
  pmap (delimited (tag [' ']) not_line_ending line_ending) fun addr =>
    ⟨username, digitsVal sid, digitsVal sver, ntype, atype, addr⟩

/-- Parser for the `s=` line; `session_name` in session_name.rs. -/
def session_name : P SessionName :=
  pmap (delimited (tag ['s', '=']) not_line_ending line_ending) fun s => ⟨s⟩

/-- Parser for the `i=` line; `session_information` in
session_information.rs. -/
def session_information : P SessionInformation :=
  pmap (delimited (tag ['i', '=']) not_line_ending line_ending) fun s => ⟨s⟩

/-- Parser for the `u=` line; `uri` in uri.rs. -/
def uri : P URI :=
  pmap (delimited (tag ['u', '=']) not_line_ending line_ending) fun s => ⟨s⟩

/-- Parser for the `e=` line; `email_address` in email_address.rs. -/
def email_address : P EmailAddress :=
  pmap (delimited (tag ['e', '=']) not_line_ending line_ending) fun s => ⟨s⟩

/-- Parser for the `p=` line; `phone_number` in phone_number.rs. -/
def phone_number : P PhoneNumber :=
  pmap (delimited (tag ['p', '=']) not_line_ending line_ending) fun s => ⟨s⟩

/-- Parser for the `c=` line; `connection` in connection.rs. -/
def connection : P Connection :=
  pbind (preceded (tag ['c', '=']) (take_till1 fun c => c == ' ')) fun ntype =>
  pbind (preceded (tag [' ']) (take_till1 fun c => c == ' ')) fun atype =>
  pmap (delimited (tag [' ']) not_line_ending line_ending) fun addr =>
    ⟨ntype, atype, addr⟩

/-- Parser for the bandwidth type; `bandwidth_type` in bandwidth.rs.  The
closure inspects the returned fragment itself, so an experimental payload
that reads `CT` or `AS` is taken for the standard type. -/
def bandwidth_type : P BandwidthType :=
  pmap
    (preceded (tag ['b', '='])
      (alt (tag ['C', 'T'])
        (alt (tag ['A', 'S'])
          (preceded (tag ['X', '-']) (take_till1 fun c => c == ':')))))
    fun span =>
      if span = ['C', 'T'] then .CT
      else if span = ['A', 'S'] then .AS
      else .Experimental span

/-- Parser for the bandwidth value; `bandwidth_value` in bandwidth.rs. -/
def bandwidth_value : P Nat :=
  pmap (delimited (tag [':']) digit1 line_ending) digitsVal

/-- Parser for the `b=` line; `bandwidth` in bandwidth.rs. -/
def bandwidth : P Bandwidth :=
  pmap (pair bandwidth_type bandwidth_value) fun x => ⟨x.1, x.2⟩

/-- Parser for the `t=` line; `timing` in time_description.rs. -/
def timing : P Timing :=
  pbind (preceded (tag ['t', '=']) digit1) fun start =>
  pmap (delimited (tag [' ']) digit1 line_ending) fun stop =>
    ⟨digitsVal start, digitsVal stop⟩

/-- Parser for one repeat offset; `offset` in time_description.rs. -/
def repeat_offset : P Nat :=
  pmap (preceded (tag [' ']) digit1) digitsVal

/-- Parser for the `r=` line; `repeat` in time_description.rs. -/
def repeatP : P RepeatTime :=
  pbind (preceded (tag ['r', '=']) digit1) fun i =>
  pbind (preceded (tag [' ']) digit1) fun d =>
  pmap (terminated (many1 repeat_offset) line_ending) fun offs =>
    ⟨digitsVal i, digitsVal d, offs⟩

/-- Parser for a time description; `time_description` in
time_description.rs. -/
def time_description : P TimeDescription :=
  pmap (pair timing (many0 repeatP)) fun x => ⟨x.1, x.2⟩

/-- The factor a time-zone offset unit multiplies by; the `unreachable`
branch of the source match cannot fire because the unit was produced by
`one_of("dhms")`. -/
def unitMul : Option Char → Int
  | some 'd' => 86400
  | some 'h' => 3600
  | some 'm' => 60
  | some 's' => 1
  | some _ => 1
  | none => 1

/-- Parser for a time-zone offset; `offset` in time_zone.rs: an optional
sign, digits, and an optional unit suffix. -/
def zone_offset : P Int :=
  pbind (opt (one_of ['+', '-'])) fun sign =>
  pbind digit1 fun ds =>
  pmap (opt (one_of ['d', 'h', 'm', 's'])) fun unit =>
    (if sign = some '-' then -(digitsVal ds : Int) else (digitsVal ds : Int)) *
      unitMul unit

/-- Parser for one adjustment; `adjustment` in time_zone.rs. -/
def adjustment : P Adjustment :=
  pmap (separated_pair digit1 (tag [' ']) zone_offset) fun x =>
    ⟨digitsVal x.1, x.2⟩

/-- Parser for the `z=` line; `time_zone` in time_zone.rs. -/
def time_zone : P TimeZone :=
  pmap
    (preceded (tag ['z', '='])
      (many1 (terminated adjustment (alt (tag [' ']) line_ending))))
    fun adjs => ⟨adjs⟩

/-- The retrieval method a matched tag denotes; the closed match of
encryption_key.rs. -/
def methodOf (span : List Char) : RetrievalMethod :=
  if span = ['b', 'a', 's', 'e', '6', '4'] then .base64
  else if span = ['c', 'l', 'e', 'a', 'r'] then .clear
  else if span = ['p', 'r', 'o', 'm', 'p', 't'] then .prompt
  else .uri

/-- Parser for the `k=` line; `encryption_key` in encryption_key.rs. -/
def encryption_key : P EncryptionKey :=
  pmap
    (delimited (tag ['k', '='])
      (pair
        (alt (tag ['b', 'a', 's', 'e', '6', '4'])
          (alt (tag ['c', 'l', 'e', 'a', 'r'])
            (alt (tag ['p', 'r', 'o', 'm', 'p', 't']) (tag ['u', 'r', 'i']))))
        (opt (preceded (tag [':']) not_line_ending)))
      line_ending)
    fun x => ⟨methodOf x.1, x.2⟩

/-- Parser for an attribute without a value; `property_attribute` in
attribute.rs. -/
def property_attribute : P Attribute :=
  pmap not_line_ending .property

/-- Parser for an attribute with a value; `value_attribute` in
attribute.rs. -/
def value_attribute : P Attribute :=
  pmap
    (pair (take_till1 fun c => c == ':' || isRustWhitespace c)
      (preceded (tag [':']) not_line_ending))
    fun x => .value x.1 x.2

/-- Parser for the `a=` line; `attribute` in attribute.rs. -/
def sdp_attribute : P Attribute :=
  delimited (tag ['a', '=']) (alt value_attribute property_attribute) line_ending

/-- The media type a matched tag denotes; the closed match of
media_description.rs. -/
def mediaTypeOf (span : List Char) : MediaType :=
  if span = MediaType.application.print then .application
  else if span = MediaType.audio.print then .audio
  else if span = MediaType.message.print then .message
  else if span = MediaType.text.print then .text
  else .video

/-- Parser for the `m=` line; `media` in media_description.rs. -/
def media : P Media :=
  pbind
    (preceded (tag ['m', '='])
      (alt (tag MediaType.application.print)
        (alt (tag MediaType.audio.print)
          (alt (tag MediaType.message.print)
            (alt (tag MediaType.text.print) (tag MediaType.video.print))))))
    fun span =>
  pbind (preceded (tag [' ']) digit1) fun port =>
  pbind (preceded (tag [' ']) (take_till1 fun c => c == ' ')) fun proto =>
  pmap (delimited (tag [' ']) not_line_ending line_ending) fun fmt =>
    ⟨mediaTypeOf span, digitsVal port, proto, fmt⟩

/-- Parser for a media description; `media_description` in
media_description.rs. -/
def media_description : P MediaDescription :=
  pbind media fun m =>
  pbind (opt session_information) fun title =>
  pbind (opt connection) fun conn =>
  pbind (many0 bandwidth) fun bws =>
  pbind (opt encryption_key) fun key =>
  pmap (many0 sdp_attribute) fun attrs =>
    ⟨m, title, conn, bws, key, attrs⟩

/-- Parser for a whole session description; `session_description` in
session_description.rs. -/
def session_description : P SessionDescription :=
  pbind version fun v =>
  pbind origin fun o =>
  pbind session_name fun sn =>
  pbind (opt session_information) fun si =>
  pbind (opt uri) fun u =>
  pbind (many0 email_address) fun emails =>
  pbind (many0 phone_number) fun phones =>
  pbind (opt connection) fun conn =>
  pbind (many0 bandwidth) fun bws =>
  pbind time_description fun td =>
  pbind (opt time_zone) fun tz =>
  pbind (opt encryption_key) fun key =>
  pbind (many0 sdp_attribute) fun attrs =>
  pmap (many0 media_description) fun mds =>
    ⟨v, o, sn, si, u, emails, phones, conn, bws, td, tz, key, attrs, mds⟩

/-- `SessionDescription::from_str`: run the parser over the whole input;
any failure is reported as `Error::InvalidSessionDescription`, which the
embedding collapses to `none`. -/
def from_str (s : List Char) : Option SessionDescription :=
  match all_consuming session_description s with
  | some (sd, _) => some sd
  | none => none

end Sdp

namespace NomC

/-- The input is empty or starts with a character other than `c`. -/
def HeadNe (c : Char) : List Char → Prop
  | [] => True
  | d :: _ => d ≠ c

/-- The input is empty or starts with a character from `A`. -/
def HeadIn (A : List Char) : List Char → Prop
  | [] => True
  | d :: _ => d ∈ A

/-- The input is empty or starts with a non-digit. -/
def HeadNotDigit : List Char → Prop
  | [] => True
  | d :: _ => d.isDigit = false

theorem headIn_nil (A : List Char) : HeadIn A [] := trivial

theorem HeadIn.headNe {A : List Char} {s : List Char} {c : Char}
    (h : HeadIn A s) (hc : c ∉ A) : HeadNe c s := by
  cases s with
  | nil => trivial
  | cons d t =>
    intro hdc
    exact hc (hdc ▸ h)

theorem HeadIn.notDigit {A : List Char} {s : List Char}
    (h : HeadIn A s) (hA : ∀ c ∈ A, c.isDigit = false) : HeadNotDigit s := by
  cases s with
  | nil => trivial
  | cons d t => exact hA d h

theorem HeadIn.mono {A B : List Char} {s : List Char}
    (h : HeadIn A s) (hAB : ∀ c ∈ A, c ∈ B) : HeadIn B s := by
  cases s with
  | nil => trivial
  | cons d t => exact hAB d h

theorem headIn_print {l r A : List Char} {L : Char}
    (hx : ∃ t, l = L :: t) (hL : L ∈ A) : HeadIn A (l ++ r) := by
  obtain ⟨t, rfl⟩ := hx
  exact hL

theorem headIn_catPrint {α : Type} {prnt : α → List Char} {xs : List α}
    {r A : List Char} {L : Char}
    (hx : ∀ x ∈ xs, ∃ t, prnt x = L :: t) (hL : L ∈ A) (hr : HeadIn A r) :
    HeadIn A (catPrint prnt xs ++ r) := by
  cases xs with
  | nil => simpa [catPrint] using hr
  | cons x xs =>
    rw [catPrint_cons, List.append_assoc]
    exact headIn_print (hx x (by simp)) hL

theorem headIn_optPrint {α : Type} {prnt : α → List Char} {o : Option α}
    {r A : List Char} {L : Char}
    (hx : ∀ x, o = some x → ∃ t, prnt x = L :: t) (hL : L ∈ A)
    (hr : HeadIn A r) : HeadIn A (Sdp.optPrint prnt o ++ r) := by
  cases o with
  | none => simpa [Sdp.optPrint] using hr
  | some x =>
    rw [show Sdp.optPrint prnt (some x) = prnt x from rfl]
    exact headIn_print (hx x rfl) hL

theorem tag_fail {c : Char} {t s : List Char} (h : HeadNe c s) :
    tag (c :: t) s = none := by
  cases s with
  | nil => exact tag_fail_nil c t
  | cons d s' => exact tag_fail_head t s' (fun hc => (h (hc ▸ rfl)).elim)

end NomC

namespace Sdp

open NomC Numeral

/-- The string contains neither carriage return nor line feed. -/
def NoCrLf (s : List Char) : Prop := ∀ c ∈ s, c ≠ '\r' ∧ c ≠ '\n'

/-- The string is nonempty and space-free, as the space-delimited fields
of the `o=`, `c=` and `m=` lines require for an unambiguous reading. -/
def TokenStr (s : List Char) : Prop := s ≠ [] ∧ ∀ c ∈ s, c ≠ ' '

instance (s : List Char) : Decidable (NoCrLf s) := by
  unfold NoCrLf; infer_instance

instance (s : List Char) : Decidable (TokenStr s) := by
  unfold TokenStr; infer_instance

/-- Constructible versions carry a `u8`. -/
def Version.Valid (x : Version) : Prop := x.v < 256

/-- Grammar-faithful origins: space-delimited fields nonempty and
space-free, the address free of line breaks, the numeric fields `u64`. -/
def Origin.Valid (x : Origin) : Prop :=
  TokenStr x.username ∧ x.session_id < 2 ^ 64 ∧ x.session_version < 2 ^ 64 ∧
    TokenStr x.network_type ∧ TokenStr x.address_type ∧
    NoCrLf x.unicast_address

/-- Session names must not embed a line break. -/
def SessionName.Valid (x : SessionName) : Prop := NoCrLf x.name

/-- Session information must not embed a line break. -/
def SessionInformation.Valid (x : SessionInformation) : Prop := NoCrLf x.info

/-- URIs must not embed a line break. -/
def URI.Valid (x : URI) : Prop := NoCrLf x.uri

/-- Email addresses must not embed a line break. -/
def EmailAddress.Valid (x : EmailAddress) : Prop := NoCrLf x.email

/-- Phone numbers must not embed a line break. -/
def PhoneNumber.Valid (x : PhoneNumber) : Prop := NoCrLf x.phone

/-- Grammar-faithful connection lines. -/
def Connection.Valid (x : Connection) : Prop :=
  TokenStr x.network_type ∧ TokenStr x.address_type ∧
    NoCrLf x.connection_address

/-- Experimental bandwidth types must be nonempty, colon-free and distinct
from the verbatim `CT` and `AS` fragments the parser's closure matches on. -/
def BandwidthType.Valid : BandwidthType → Prop
  | .CT => True
  | .AS => True
  | .Experimental x =>
    x ≠ [] ∧ x ≠ ['C', 'T'] ∧ x ≠ ['A', 'S'] ∧ ∀ c ∈ x, c ≠ ':'

/-- Valid bandwidth lines. -/
def Bandwidth.Valid (x : Bandwidth) : Prop :=
  x.typ.Valid ∧ x.value < 2 ^ 64

/-- Timing fields are `u64`. -/
def Timing.Valid (x : Timing) : Prop :=
  x.start_time < 2 ^ 64 ∧ x.stop_time < 2 ^ 64

/-- Repeat entries need at least one offset (the parser demands one) and
`u64` fields. -/
def RepeatTime.Valid (x : RepeatTime) : Prop :=
  x.offsets ≠ [] ∧ x.interval < 2 ^ 64 ∧ x.active_duration < 2 ^ 64 ∧
    ∀ o ∈ x.offsets, o < 2 ^ 64

/-- Valid time descriptions. -/
def TimeDescription.Valid (x : TimeDescription) : Prop :=
  x.timing.Valid ∧ ∀ r ∈ x.repeat_times, r.Valid

/-- Valid adjustments: a `u64` time, an `i64` offset that is a whole
number of hours (the serializer renders offsets in hours only). -/
def Adjustment.Valid (x : Adjustment) : Prop :=
  x.time < 2 ^ 64 ∧ (3600 : Int) ∣ x.offset ∧
    -(2 ^ 63) ≤ x.offset ∧ x.offset < 2 ^ 63

/-- Valid time zones: a nonempty adjustment list (the serializer errors on
an empty one) of valid adjustments. -/
def TimeZone.Valid (x : TimeZone) : Prop :=
  x.adjustments ≠ [] ∧ ∀ a ∈ x.adjustments, a.Valid

/-- Encryption-key data must not embed a line break. -/
def EncryptionKey.Valid (x : EncryptionKey) : Prop :=
  ∀ s, x.data = some s → NoCrLf s

/-- Valid attributes: a property must be colon-free (a colon after a
leading run of name characters would make the line re-parse as a value
attribute) and line-break-free; a value attribute's name must be nonempty
with neither colons nor whitespace, and its value line-break-free. -/
def Attribute.Valid : Attribute → Prop
  | .property p => ∀ c ∈ p, c ≠ ':' ∧ c ≠ '\r' ∧ c ≠ '\n'
  | .value k v =>
    k ≠ [] ∧ (∀ c ∈ k, (c == ':' || isRustWhitespace c) = false) ∧ NoCrLf v

/-- Valid media lines. -/
def Media.Valid (x : Media) : Prop :=
  x.port < 2 ^ 64 ∧ TokenStr x.protocol ∧ NoCrLf x.format

/-- Valid optional component. -/
def OptValid (P : α → Prop) : Option α → Prop
  | none => True
  | some x => P x

instance {P : α → Prop} [DecidablePred P] (o : Option α) :
    Decidable (OptValid P o) := by
  cases o <;> simp [OptValid] <;> infer_instance

/-- Valid media descriptions. -/
def MediaDescription.Valid (x : MediaDescription) : Prop :=
  x.media.Valid ∧ OptValid SessionInformation.Valid x.title ∧
    OptValid Connection.Valid x.connection ∧
    (∀ b ∈ x.bandwidths, b.Valid) ∧
    OptValid EncryptionKey.Valid x.encryption_key ∧
    ∀ a ∈ x.attributes, a.Valid

/-- Valid session descriptions: every section valid per the grammar. -/
def SessionDescription.Valid (x : SessionDescription) : Prop :=
  x.version.Valid ∧ x.origin.Valid ∧ x.session_name.Valid ∧
    OptValid SessionInformation.Valid x.session_information ∧
    OptValid URI.Valid x.uri ∧
    (∀ e ∈ x.email_addresses, e.Valid) ∧
    (∀ p ∈ x.phone_numbers, p.Valid) ∧
    OptValid Connection.Valid x.connection ∧
    (∀ b ∈ x.bandwidths, b.Valid) ∧
    x.time_description.Valid ∧
    OptValid TimeZone.Valid x.time_zone ∧
    OptValid EncryptionKey.Valid x.encryption_key ∧
    (∀ a ∈ x.attributes, a.Valid) ∧
    ∀ m ∈ x.media_descriptions, m.Valid

instance (x : Version) : Decidable x.Valid := by unfold Version.Valid; infer_instance
instance (x : Origin) : Decidable x.Valid := by unfold Origin.Valid; infer_instance
instance (x : SessionName) : Decidable x.Valid := by unfold SessionName.Valid; infer_instance
instance (x : SessionInformation) : Decidable x.Valid := by unfold SessionInformation.Valid; infer_instance
instance (x : URI) : Decidable x.Valid := by unfold URI.Valid; infer_instance
instance (x : EmailAddress) : Decidable x.Valid := by unfold EmailAddress.Valid; infer_instance
instance (x : PhoneNumber) : Decidable x.Valid := by unfold PhoneNumber.Valid; infer_instance
instance (x : Connection) : Decidable x.Valid := by unfold Connection.Valid; infer_instance
instance (x : BandwidthType) : Decidable x.Valid := by
  cases x <;> unfold BandwidthType.Valid <;> infer_instance
instance (x : Bandwidth) : Decidable x.Valid := by unfold Bandwidth.Valid; infer_instance
instance (x : Timing) : Decidable x.Valid := by unfold Timing.Valid; infer_instance
instance (x : RepeatTime) : Decidable x.Valid := by unfold RepeatTime.Valid; infer_instance
instance (x : TimeDescription) : Decidable x.Valid := by unfold TimeDescription.Valid; infer_instance
instance (x : Adjustment) : Decidable x.Valid := by unfold Adjustment.Valid; infer_instance
instance (x : TimeZone) : Decidable x.Valid := by unfold TimeZone.Valid; infer_instance
instance (x : EncryptionKey) : Decidable x.Valid := by unfold EncryptionKey.Valid; infer_instance
instance (x : Attribute) : Decidable x.Valid := by
  cases x <;> unfold Attribute.Valid <;> infer_instance
instance (x : Media) : Decidable x.Valid := by unfold Media.Valid; infer_instance
instance (x : MediaDescription) : Decidable x.Valid := by unfold MediaDescription.Valid; infer_instance
instance (x : SessionDescription) : Decidable x.Valid := by unfold SessionDescription.Valid; infer_instance

end Sdp

namespace Sdp

open NomC Numeral

theorem crlf_cons (r : List Char) : crlf ++ r = '\r' :: '\n' :: r := rfl

theorem headNotDigit_elim {r : List Char} {c : Char} {t : List Char}
    (h : HeadNotDigit r) (he : r = c :: t) : c.isDigit = false := by
  subst he; exact h

theorem headNotDigit_crlf (r : List Char) : HeadNotDigit (crlf ++ r) := by
  show ('\r').isDigit = false
  decide

theorem line_ending_consume (r : List Char) :
    line_ending (crlf ++ r) = some (crlf, r) := rfl

theorem digit1_print (n : Nat) (r : List Char) (hr : HeadNotDigit r) :
    digit1 (natPrint n ++ r) = some (natPrint n, r) :=
  digit1_consume r (natPrint_ne_nil n) (natPrint_all_digits n)
    (fun c t ht => headNotDigit_elim hr ht)

theorem rest_of_line_consume (s : List Char) (r : List Char) (hs : NoCrLf s) :
    not_line_ending (s ++ (crlf ++ r)) = some (s, crlf ++ r) := by
  rw [crlf_cons]
  exact not_line_ending_consume r hs

theorem token_consume (s : List Char) (r : List Char) (hs : TokenStr s) :
    take_till1 (fun c => c == ' ') (s ++ ' ' :: r) = some (s, ' ' :: r) :=
  take_till1_consume (' ' :: r) hs.1
    (fun c hc => by simpa using hs.2 c hc)
    (fun c t ht => by cases ht; simp)

/-- A `<letter>=<rest of line>` parser consumes exactly the corresponding
serialized line. -/
theorem line_tag_consume (c : Char) (s r : List Char) (hs : NoCrLf s) :
    delimited (tag [c, '=']) not_line_ending line_ending
      ([c, '='] ++ (s ++ (crlf ++ r))) = some (s, r) := by
  unfold delimited
  rw [pbind_some (tag_consume [c, '='] _)]
  rw [pbind_some (rest_of_line_consume s r hs)]
  rw [pmap_some (line_ending_consume r)]

theorem version_consume (x : Version) (r : List Char) :
    version (Version.print x ++ r) = some (x, r) := by
  unfold version Version.print delimited
  simp only [List.append_assoc]
  rw [pmap_some (by
    rw [pbind_some (tag_consume ['v', '='] _)]
    rw [pbind_some (digit1_print x.v (crlf ++ r) (headNotDigit_crlf r))]
    rw [pmap_some (line_ending_consume r)])]
  rw [digitsVal_natPrint]

theorem version_fail {s : List Char} (h : HeadNe 'v' s) : version s = none := by
  unfold version delimited
  rw [pmap_none (pbind_none (tag_fail h))]

theorem session_name_consume (x : SessionName) (r : List Char) (hx : x.Valid) :
    session_name (SessionName.print x ++ r) = some (x, r) := by
  unfold session_name SessionName.print
  simp only [List.append_assoc]
  rw [pmap_some (line_tag_consume 's' x.name r hx)]

theorem session_name_fail {s : List Char} (h : HeadNe 's' s) :
    session_name s = none := by
  unfold session_name delimited
  rw [pmap_none (pbind_none (tag_fail h))]

theorem session_information_consume (x : SessionInformation) (r : List Char)
    (hx : x.Valid) :
    session_information (SessionInformation.print x ++ r) = some (x, r) := by
  unfold session_information SessionInformation.print
  simp only [List.append_assoc]
  rw [pmap_some (line_tag_consume 'i' x.info r hx)]

theorem session_information_fail {s : List Char} (h : HeadNe 'i' s) :
    session_information s = none := by
  unfold session_information delimited
  rw [pmap_none (pbind_none (tag_fail h))]

theorem uri_consume (x : URI) (r : List Char) (hx : x.Valid) :
    uri (URI.print x ++ r) = some (x, r) := by
  unfold uri URI.print
  simp only [List.append_assoc]
  rw [pmap_some (line_tag_consume 'u' x.uri r hx)]

theorem uri_fail {s : List Char} (h : HeadNe 'u' s) : uri s = none := by
  unfold uri delimited
  rw [pmap_none (pbind_none (tag_fail h))]

theorem email_address_consume (x : EmailAddress) (r : List Char) (hx : x.Valid) :
    email_address (EmailAddress.print x ++ r) = some (x, r) := by
  unfold email_address EmailAddress.print
  simp only [List.append_assoc]
  rw [pmap_some (line_tag_consume 'e' x.email r hx)]

theorem email_address_fail {s : List Char} (h : HeadNe 'e' s) :
    email_address s = none := by
  unfold email_address delimited
  rw [pmap_none (pbind_none (tag_fail h))]

theorem phone_number_consume (x : PhoneNumber) (r : List Char) (hx : x.Valid) :
    phone_number (PhoneNumber.print x ++ r) = some (x, r) := by
  unfold phone_number PhoneNumber.print
  simp only [List.append_assoc]
  rw [pmap_some (line_tag_consume 'p' x.phone r hx)]

theorem phone_number_fail {s : List Char} (h : HeadNe 'p' s) :
    phone_number s = none := by
  unfold phone_number delimited
  rw [pmap_none (pbind_none (tag_fail h))]

end Sdp

namespace Sdp

open NomC Numeral

theorem tag_space (r : List Char) : tag [' '] (' ' :: r) = some ([' '], r) :=
  tag_consume [' '] r

theorem headNotDigit_space (r : List Char) : HeadNotDigit (' ' :: r) := by
  show (' ').isDigit = false
  decide

theorem origin_consume (x : Origin) (r : List Char) (hx : x.Valid) :
    origin (Origin.print x ++ r) = some (x, r) := by
  obtain ⟨hu, hsid, hsver, hnt, hat, had⟩ := hx
  have hin : Origin.print x ++ r =
      ['o', '='] ++ (x.username ++ (' ' :: (natPrint x.session_id ++
        (' ' :: (natPrint x.session_version ++ (' ' :: (x.network_type ++
          (' ' :: (x.address_type ++ (' ' :: (x.unicast_address ++
            (crlf ++ r)))))))))))) := by
    simp [Origin.print, crlf]
  unfold origin
  rw [hin]
  rw [pbind_some (by
    unfold preceded
    rw [pbind_some (tag_consume ['o', '='] _)]
    exact token_consume x.username _ hu)]
  rw [pbind_some (by
    unfold preceded
    rw [pbind_some (tag_space _)]
    exact digit1_print x.session_id _ (headNotDigit_space _))]
  rw [pbind_some (by
    unfold preceded
    rw [pbind_some (tag_space _)]
    exact digit1_print x.session_version _ (headNotDigit_space _))]
  rw [pbind_some (by
    unfold preceded
    rw [pbind_some (tag_space _)]
    exact token_consume x.network_type _ hnt)]
  rw [pbind_some (by
    unfold preceded
    rw [pbind_some (tag_space _)]
    exact token_consume x.address_type _ hat)]
  rw [pmap_some (by
    unfold delimited
    rw [pbind_some (tag_space _)]
    rw [pbind_some (rest_of_line_consume x.unicast_address r had)]
    exact pmap_some (line_ending_consume r))]
  simp [digitsVal_natPrint]

theorem origin_fail {s : List Char} (h : HeadNe 'o' s) : origin s = none := by
  unfold origin preceded
  rw [pbind_none (pbind_none (tag_fail h))]

theorem connection_consume (x : Connection) (r : List Char) (hx : x.Valid) :
    connection (Connection.print x ++ r) = some (x, r) := by
  obtain ⟨hnt, hat, had⟩ := hx
  have hin : Connection.print x ++ r =
      ['c', '='] ++ (x.network_type ++ (' ' :: (x.address_type ++
        (' ' :: (x.connection_address ++ (crlf ++ r)))))) := by
    simp [Connection.print, crlf]
  unfold connection
  rw [hin]
  rw [pbind_some (by
    unfold preceded
    rw [pbind_some (tag_consume ['c', '='] _)]
    exact token_consume x.network_type _ hnt)]
  rw [pbind_some (by
    unfold preceded
    rw [pbind_some (tag_space _)]
    exact token_consume x.address_type _ hat)]
  rw [pmap_some (by
    unfold delimited
    rw [pbind_some (tag_space _)]
    rw [pbind_some (rest_of_line_consume x.connection_address r had)]
    exact pmap_some (line_ending_consume r))]

theorem connection_fail {s : List Char} (h : HeadNe 'c' s) :
    connection s = none := by
  unfold connection preceded
  rw [pbind_none (pbind_none (tag_fail h))]

theorem media_type_tag_consume (t : MediaType) (r : List Char) :
    alt (tag MediaType.application.print)
      (alt (tag MediaType.audio.print)
        (alt (tag MediaType.message.print)
          (alt (tag MediaType.text.print) (tag MediaType.video.print))))
      (t.print ++ r) = some (t.print, r) := by
  cases t with
  | application => exact alt_first (tag_consume _ r)
  | audio =>
    rw [alt_second (by
      simp [tag, MediaType.print, List.isPrefixOf])]
    exact alt_first (tag_consume _ r)
  | message =>
    rw [alt_second (by
      simp [tag, MediaType.print, List.isPrefixOf])]
    rw [alt_second (by
      simp [tag, MediaType.print, List.isPrefixOf])]
    exact alt_first (tag_consume _ r)
  | text =>
    rw [alt_second (by
      simp [tag, MediaType.print, List.isPrefixOf])]
    rw [alt_second (by
      simp [tag, MediaType.print, List.isPrefixOf])]
    rw [alt_second (by
      simp [tag, MediaType.print, List.isPrefixOf])]
    exact alt_first (tag_consume _ r)
  | video =>
    rw [alt_second (by
      simp [tag, MediaType.print, List.isPrefixOf])]
    rw [alt_second (by
      simp [tag, MediaType.print, List.isPrefixOf])]
    rw [alt_second (by
      simp [tag, MediaType.print, List.isPrefixOf])]
    rw [alt_second (by
      simp [tag, MediaType.print, List.isPrefixOf])]
    exact tag_consume _ r

theorem mediaTypeOf_print (t : MediaType) : mediaTypeOf t.print = t := by
  cases t <;> decide

end Sdp

namespace NomC

theorem catPrint_pred {α : Type} {prnt : α → List Char} {C : List Char → Prop}
    {xs : List α} {rest : List Char}
    (hstable : ∀ x ∈ xs, ∀ r, C r → C (prnt x ++ r)) (hrest : C rest) :
    C (catPrint prnt xs ++ rest) := by
  induction xs with
  | nil => simpa [catPrint] using hrest
  | cons x xs ih =>
    rw [catPrint_cons, List.append_assoc]
    exact hstable x (by simp)
      _ (ih (fun y hy => hstable y (by simp [hy])))

theorem many0_consume_listC {p : P α} (prnt : α → List Char)
    (C : List Char → Prop) (xs : List α) (rest : List Char)
    (hel : ∀ x ∈ xs, ∀ r, C r → p (prnt x ++ r) = some (x, r))
    (hne : ∀ x ∈ xs, prnt x ≠ [])
    (hstable : ∀ x ∈ xs, ∀ r, C r → C (prnt x ++ r))
    (hrest : C rest)
    (hfail : p rest = none) :
    many0 p (catPrint prnt xs ++ rest) = some (xs, rest) := by
  induction xs with
  | nil => simpa [catPrint] using many0_eq_none hfail
  | cons x xs ih =>
    rw [catPrint_cons, List.append_assoc]
    have hC : C (catPrint prnt xs ++ rest) :=
      catPrint_pred (fun y hy => hstable y (by simp [hy])) hrest
    have hx := hel x (by simp) (catPrint prnt xs ++ rest) hC
    have hxe : prnt x ≠ [] := hne x (by simp)
    have hlt : (catPrint prnt xs ++ rest).length <
        (prnt x ++ (catPrint prnt xs ++ rest)).length := by
      cases hpx : prnt x with
      | nil => exact absurd hpx hxe
      | cons c t => simp only [List.length_append, List.length_cons]; omega
    rw [many0_step hx hlt,
      ih (fun y hy => hel y (by simp [hy])) (fun y hy => hne y (by simp [hy]))
        (fun y hy => hstable y (by simp [hy]))]

theorem many1_consume_listC {p : P α} (prnt : α → List Char)
    (C : List Char → Prop) (x : α) (xs : List α) (rest : List Char)
    (hel : ∀ y ∈ x :: xs, ∀ r, C r → p (prnt y ++ r) = some (y, r))
    (hne : ∀ y ∈ x :: xs, prnt y ≠ [])
    (hstable : ∀ y ∈ x :: xs, ∀ r, C r → C (prnt y ++ r))
    (hrest : C rest)
    (hfail : p rest = none) :
    many1 p (catPrint prnt (x :: xs) ++ rest) = some (x :: xs, rest) := by
  rw [catPrint_cons, List.append_assoc]
  unfold many1
  have hC : C (catPrint prnt xs ++ rest) :=
    catPrint_pred (fun y hy => hstable y (by simp [hy])) hrest
  rw [pbind_some (hel x (by simp) _ hC)]
  rw [many0_consume_listC prnt C xs rest (fun y hy => hel y (by simp [hy]))
    (fun y hy => hne y (by simp [hy])) (fun y hy => hstable y (by simp [hy]))
    hrest hfail]

end NomC

namespace Sdp

open NomC Numeral

theorem bandwidth_value_consume (v : Nat) (r : List Char) :
    bandwidth_value ([':'] ++ (natPrint v ++ (crlf ++ r))) = some (v, r) := by
  unfold bandwidth_value delimited
  rw [pmap_some (by
    rw [pbind_some (tag_consume [':'] _)]
    rw [pbind_some (digit1_print v _ (headNotDigit_crlf r))]
    exact pmap_some (line_ending_consume r))]
  rw [digitsVal_natPrint]

theorem bandwidth_consume (x : Bandwidth) (r : List Char) (hx : x.Valid) :
    bandwidth (Bandwidth.print x ++ r) = some (x, r) := by
  obtain ⟨typ, v⟩ := x
  obtain ⟨htyp, hv⟩ := hx
  cases typ with
  | CT =>
    have hin : Bandwidth.print ⟨.CT, v⟩ ++ r =
        ['b', '='] ++ (['C', 'T'] ++ ([':'] ++ (natPrint v ++ (crlf ++ r)))) := by
      simp [Bandwidth.print, BandwidthType.print, crlf]
    have hbt : bandwidth_type
        (['b', '='] ++ (['C', 'T'] ++ ([':'] ++ (natPrint v ++ (crlf ++ r))))) =
        some (.CT, [':'] ++ (natPrint v ++ (crlf ++ r))) := by
      unfold bandwidth_type preceded
      rw [pmap_some (by
        rw [pbind_some (tag_consume ['b', '='] _)]
        exact alt_first (tag_consume ['C', 'T'] _))]
      simp
    unfold bandwidth pair
    rw [hin]
    rw [pmap_some (by
      rw [pbind_some hbt]
      exact pmap_some (bandwidth_value_consume v r))]
  | AS =>
    have hin : Bandwidth.print ⟨.AS, v⟩ ++ r =
        ['b', '='] ++ (['A', 'S'] ++ ([':'] ++ (natPrint v ++ (crlf ++ r)))) := by
      simp [Bandwidth.print, BandwidthType.print, crlf]
    have hbt : bandwidth_type
        (['b', '='] ++ (['A', 'S'] ++ ([':'] ++ (natPrint v ++ (crlf ++ r))))) =
        some (.AS, [':'] ++ (natPrint v ++ (crlf ++ r))) := by
      unfold bandwidth_type preceded
      rw [pmap_some (by
        rw [pbind_some (tag_consume ['b', '='] _)]
        rw [alt_second (by simp [tag, List.isPrefixOf])]
        exact alt_first (tag_consume ['A', 'S'] _))]
      simp
    unfold bandwidth pair
    rw [hin]
    rw [pmap_some (by
      rw [pbind_some hbt]
      exact pmap_some (bandwidth_value_consume v r))]
  | Experimental e =>
    obtain ⟨hne, hct, has, hcol⟩ := htyp
    have hin : Bandwidth.print ⟨.Experimental e, v⟩ ++ r =
        ['b', '='] ++ (['X', '-'] ++ (e ++ (':' :: (natPrint v ++ (crlf ++ r))))) := by
      simp [Bandwidth.print, BandwidthType.print, crlf]
    have hspan : take_till1 (fun c => c == ':')
        (e ++ (':' :: (natPrint v ++ (crlf ++ r)))) =
        some (e, ':' :: (natPrint v ++ (crlf ++ r))) :=
      take_till1_consume _ hne (fun c hc => by simpa using hcol c hc)
        (fun c t ht => by cases ht; simp)
    have hbt : bandwidth_type
        (['b', '='] ++ (['X', '-'] ++ (e ++ (':' :: (natPrint v ++ (crlf ++ r)))))) =
        some (.Experimental e, ':' :: (natPrint v ++ (crlf ++ r))) := by
      unfold bandwidth_type preceded
      rw [pmap_some (by
        rw [pbind_some (tag_consume ['b', '='] _)]
        rw [alt_second (by
          cases e with
          | nil => simp [tag, List.isPrefixOf]
          | cons c t => simp [tag, List.isPrefixOf])]
        rw [alt_second (by
          cases e with
          | nil => simp [tag, List.isPrefixOf]
          | cons c t => simp [tag, List.isPrefixOf])]
        rw [pbind_some (tag_consume ['X', '-'] _)]
        exact hspan)]
      simp [hct, has]
    unfold bandwidth pair
    rw [hin]
    rw [pmap_some (by
      rw [pbind_some hbt]
      exact pmap_some (by
        show bandwidth_value (':' :: (natPrint v ++ (crlf ++ r))) = some (v, r)
        exact bandwidth_value_consume v r))]

theorem bandwidth_fail {s : List Char} (h : HeadNe 'b' s) :
    bandwidth s = none := by
  unfold bandwidth pair bandwidth_type preceded
  rw [pmap_none (pbind_none (pmap_none (pbind_none (tag_fail h))))]

theorem timing_consume (x : Timing) (r : List Char) :
    timing (Timing.print x ++ r) = some (x, r) := by
  have hin : Timing.print x ++ r =
      ['t', '='] ++ (natPrint x.start_time ++ (' ' :: (natPrint x.stop_time ++
        (crlf ++ r)))) := by
    simp [Timing.print, crlf]
  unfold timing
  rw [hin]
  rw [pbind_some (by
    unfold preceded
    rw [pbind_some (tag_consume ['t', '='] _)]
    exact digit1_print x.start_time _ (headNotDigit_space _))]
  rw [pmap_some (by
    unfold delimited
    rw [pbind_some (tag_space _)]
    rw [pbind_some (digit1_print x.stop_time _ (headNotDigit_crlf r))]
    exact pmap_some (line_ending_consume r))]
  simp [digitsVal_natPrint]

theorem timing_fail {s : List Char} (h : HeadNe 't' s) : timing s = none := by
  unfold timing preceded
  rw [pbind_none (pbind_none (tag_fail h))]

theorem repeat_offset_consume (o : Nat) (r : List Char) (hr : HeadNotDigit r) :
    repeat_offset ((' ' :: natPrint o) ++ r) = some (o, r) := by
  unfold repeat_offset preceded
  rw [List.cons_append]
  rw [pmap_some (by
    rw [pbind_some (tag_space _)]
    exact digit1_print o r hr)]
  rw [digitsVal_natPrint]

theorem repeat_offset_fail {s : List Char} (h : HeadNe ' ' s) :
    repeat_offset s = none := by
  unfold repeat_offset preceded
  rw [pmap_none (pbind_none (tag_fail h))]

theorem repeatP_consume (x : RepeatTime) (r : List Char) (hx : x.Valid) :
    repeatP (RepeatTime.print x ++ r) = some (x, r) := by
  obtain ⟨i, d, offs⟩ := x
  obtain ⟨hoffs, hi, hd, ho⟩ := hx
  cases offs with
  | nil => exact absurd rfl hoffs
  | cons o os =>
    have hin : RepeatTime.print ⟨i, d, o :: os⟩ ++ r =
        ['r', '='] ++ (natPrint i ++ (' ' :: (natPrint d ++
          (catPrint (fun o => ' ' :: natPrint o) (o :: os) ++ (crlf ++ r))))) := by
      simp [RepeatTime.print, crlf]
    unfold repeatP
    rw [hin]
    rw [pbind_some (by
      unfold preceded
      rw [pbind_some (tag_consume ['r', '='] _)]
      exact digit1_print i _ (headNotDigit_space _))]
    rw [pbind_some (by
      unfold preceded
      rw [pbind_some (tag_space _)]
      refine digit1_print d _ ?_
      rw [catPrint_cons, List.append_assoc]
      exact headNotDigit_space _)]
    rw [pmap_some (by
      unfold terminated
      rw [pbind_some (many1_consume_listC (fun o => ' ' :: natPrint o)
        HeadNotDigit o os (crlf ++ r)
        (fun y _ r' hr' => repeat_offset_consume y r' hr')
        (fun y _ => by simp)
        (fun y _ r' _ => headNotDigit_space _)
        (headNotDigit_crlf r)
        (repeat_offset_fail (by
          show HeadNe ' ' (crlf ++ r)
          rw [crlf_cons]
          exact (by decide : ('\r') ≠ ' '))))]
      exact pmap_some (line_ending_consume r))]
    simp [digitsVal_natPrint]

theorem repeatP_fail {s : List Char} (h : HeadNe 'r' s) : repeatP s = none := by
  unfold repeatP preceded
  rw [pbind_none (pbind_none (tag_fail h))]

theorem time_description_consume (x : TimeDescription) (r : List Char)
    (hx : x.Valid) (hr : HeadNe 'r' r) :
    time_description (TimeDescription.print x ++ r) = some (x, r) := by
  unfold time_description pair TimeDescription.print
  rw [List.append_assoc]
  have hrep : many0 repeatP (catPrint RepeatTime.print x.repeat_times ++ r) =
      some (x.repeat_times, r) :=
    many0_consume_list RepeatTime.print x.repeat_times r
      (fun y hy r' => repeatP_consume y r' (hx.2 y hy))
      (fun y _ => by simp [RepeatTime.print])
      (repeatP_fail hr)
  rw [pmap_some (by
    rw [pbind_some (timing_consume x.timing _)]
    exact pmap_some hrep)]

theorem time_description_fail {s : List Char} (h : HeadNe 't' s) :
    time_description s = none := by
  unfold time_description pair
  rw [pmap_none (pbind_none (timing_fail h))]

end Sdp


namespace Sdp

open NomC Numeral

theorem natPrint_head_cases (n : Nat) :
    ∃ c t, natPrint n = c :: t ∧ c.isDigit = true := by
  cases hn : natPrint n with
  | nil => exact absurd hn (natPrint_ne_nil n)
  | cons c t =>
    exact ⟨c, t, rfl, natPrint_all_digits n c (by rw [hn]; simp)⟩

/-- A terminator position for an adjustment: a space before the next
adjustment or the carriage return of the line ending. -/
def SepHead (r : List Char) : Prop :=
  ∃ c t, r = c :: t ∧ (c = ' ' ∨ c = '\r')

theorem SepHead.headNotDigit {r : List Char} (h : SepHead r) : HeadNotDigit r := by
  obtain ⟨c, t, rfl, rfl | rfl⟩ := h
  · exact (by decide : (' ').isDigit = false)
  · exact (by decide : ('\r').isDigit = false)

theorem SepHead.not_unit {r : List Char} (h : SepHead r) :
    one_of ['d', 'h', 'm', 's'] r = none := by
  obtain ⟨c, t, rfl, hc | hc⟩ := h <;> subst hc <;>
    exact one_of_fail _ _ (by decide)

theorem one_of_sign_fail_digit (r : List Char) (n : Nat) :
    opt (one_of ['+', '-']) (natPrint n ++ r) = some (none, natPrint n ++ r) := by
  obtain ⟨c, t, hds, hc⟩ := natPrint_head_cases n
  rw [hds, List.cons_append]
  refine opt_none (one_of_fail _ _ ?_)
  intro hmem
  rcases List.mem_pair.mp hmem with rfl | rfl <;> simp at hc

theorem zone_offset_consume (o : Int) (ho : (3600 : Int) ∣ o) (r : List Char)
    (hr : SepHead r) :
    zone_offset ((intPrint (o.tdiv 3600) ++
      (if o.tdiv 3600 = 0 then [] else ['h'])) ++ r) = some (o, r) := by
  obtain ⟨k, rfl⟩ := ho
  rw [Int.mul_tdiv_cancel_left k (by norm_num)]
  rcases lt_trichotomy k 0 with hk | hk | hk
  · have hne : k ≠ 0 := ne_of_lt hk
    have hprint : intPrint k = '-' :: natPrint k.natAbs := by
      simp [intPrint, hk]
    rw [if_neg hne, hprint]
    unfold zone_offset
    rw [List.cons_append, List.cons_append]
    rw [pbind_some (opt_some (one_of_consume ['+', '-'] _ (by simp)))]
    rw [List.append_assoc]
    rw [pbind_some (by
      show digit1 (natPrint k.natAbs ++ (['h'] ++ r)) = _
      refine digit1_print k.natAbs _ ?_
      show ('h').isDigit = false
      decide)]
    rw [pmap_some (by
      show opt (one_of ['d', 'h', 'm', 's']) (['h'] ++ r) = _
      exact opt_some (one_of_consume ['d', 'h', 'm', 's'] r (by decide)))]
    simp only [digitsVal_natPrint, unitMul]
    have habs : ((k.natAbs : Int)) = -k := Int.ofNat_natAbs_of_nonpos (le_of_lt hk)
    simp [habs]
    ring
  · subst hk
    rw [if_pos rfl]
    have hprint : intPrint 0 = natPrint 0 := by simp [intPrint]
    rw [hprint, List.append_nil]
    unfold zone_offset
    rw [pbind_some (one_of_sign_fail_digit _ 0)]
    rw [pbind_some (digit1_print 0 r hr.headNotDigit)]
    rw [pmap_some (opt_none hr.not_unit)]
    simp [digitsVal_natPrint, unitMul]
  · have hne : k ≠ 0 := (ne_of_lt hk).symm
    have hprint : intPrint k = natPrint k.toNat := by
      simp [intPrint, not_lt_of_gt hk]
    rw [if_neg hne, hprint]
    unfold zone_offset
    rw [List.append_assoc]
    rw [pbind_some (one_of_sign_fail_digit _ k.toNat)]
    rw [pbind_some (by
      show digit1 (natPrint k.toNat ++ (['h'] ++ r)) = _
      refine digit1_print k.toNat _ ?_
      show ('h').isDigit = false
      decide)]
    rw [pmap_some (by
      show opt (one_of ['d', 'h', 'm', 's']) (['h'] ++ r) = _
      exact opt_some (one_of_consume ['d', 'h', 'm', 's'] r (by decide)))]
    simp only [digitsVal_natPrint, unitMul]
    have htn : ((k.toNat : Int)) = k := Int.toNat_of_nonneg (le_of_lt hk)
    simp [htn]
    ring

end Sdp

namespace Sdp

open NomC Numeral

theorem adjustment_print_ne_nil (a : Adjustment) : Adjustment.print a ≠ [] := by
  obtain ⟨c, t, hds, _⟩ := natPrint_head_cases a.time
  simp [Adjustment.print, hds]

theorem adjustment_consume (a : Adjustment) (r : List Char) (ha : a.Valid)
    (hr : SepHead r) : adjustment (Adjustment.print a ++ r) = some (a, r) := by
  obtain ⟨ht, hdvd, hlo, hhi⟩ := ha
  have hin : Adjustment.print a ++ r =
      natPrint a.time ++ (' ' :: ((intPrint (a.offset.tdiv 3600) ++
        (if a.offset.tdiv 3600 = 0 then [] else ['h'])) ++ r)) := by
    simp [Adjustment.print]
  unfold adjustment separated_pair preceded
  rw [hin]
  rw [pmap_some (by
    rw [pbind_some (digit1_print a.time _ (headNotDigit_space _))]
    rw [pbind_some (tag_space _)]
    exact pmap_some (zone_offset_consume a.offset hdvd r hr))]
  simp [digitsVal_natPrint]

theorem adjustment_fail {s : List Char} (h : HeadNotDigit s) :
    adjustment s = none := by
  unfold adjustment separated_pair
  rw [pmap_none (pbind_none (digit1_fail (fun c t ht => headNotDigit_elim h ht)))]

/-- The serialized segment from the `i`-th adjustment on: each adjustment
followed by its separator (a space between entries, the CRLF at the end),
then the suffix `r`. -/
def adjSeg : List Adjustment → List Char → List Char
  | [], r => r
  | b :: bs, r =>
    Adjustment.print b ++
      (catPrint (fun c => ' ' :: Adjustment.print c) bs ++ (crlf ++ r))

theorem adj_unit_consume (b : Adjustment) (bs : List Adjustment) (r : List Char)
    (hb : b.Valid) :
    terminated adjustment (alt (tag [' ']) line_ending) (adjSeg (b :: bs) r) =
      some (b, adjSeg bs r) := by
  cases bs with
  | nil =>
    show terminated adjustment (alt (tag [' ']) line_ending)
      (Adjustment.print b ++ (catPrint (fun c => ' ' :: Adjustment.print c) [] ++
        (crlf ++ r))) = some (b, r)
    rw [catPrint_nil, List.nil_append]
    unfold terminated
    rw [pbind_some (adjustment_consume b (crlf ++ r) hb
      ⟨'\r', '\n' :: r, crlf_cons r, Or.inr rfl⟩)]
    rw [pmap_some (by
      rw [alt_second (by
        rw [crlf_cons]
        exact tag_fail (show ('\r') ≠ ' ' by decide))]
      exact line_ending_consume r)]
  | cons c cs =>
    show terminated adjustment (alt (tag [' ']) line_ending)
      (Adjustment.print b ++
        (catPrint (fun c => ' ' :: Adjustment.print c) (c :: cs) ++
          (crlf ++ r))) = some (b, adjSeg (c :: cs) r)
    rw [catPrint_cons]
    simp only [List.cons_append, List.append_assoc]
    unfold terminated
    rw [pbind_some (adjustment_consume b _ hb ⟨' ', _, rfl, Or.inl rfl⟩)]
    rw [pmap_some (alt_first (tag_space _))]
    simp [adjSeg]

theorem adjSeg_length (b : Adjustment) (bs : List Adjustment) (r : List Char) :
    (adjSeg bs r).length < (adjSeg (b :: bs) r).length := by
  have hb : 0 < (Adjustment.print b).length := by
    cases hp : Adjustment.print b with
    | nil => exact absurd hp (adjustment_print_ne_nil b)
    | cons c t => simp
  cases bs with
  | nil => simp [adjSeg, crlf]; omega
  | cons c cs => simp [adjSeg, catPrint_cons, crlf]; omega

theorem adj_many0_consume (adjs : List Adjustment) (r : List Char)
    (hv : ∀ y ∈ adjs, y.Valid) (hr : HeadNotDigit r) :
    many0 (terminated adjustment (alt (tag [' ']) line_ending))
      (adjSeg adjs r) = some (adjs, r) := by
  induction adjs with
  | nil =>
    exact many0_eq_none (by
      unfold terminated
      exact pbind_none (adjustment_fail hr))
  | cons b bs ih =>
    rw [many0_step (adj_unit_consume b bs r (hv b (by simp)))
      (adjSeg_length b bs r)]
    rw [ih (fun y hy => hv y (by simp [hy]))]

theorem time_zone_consume (x : TimeZone) (r : List Char) (hx : x.Valid)
    (hr : HeadNotDigit r) :
    time_zone (TimeZone.print x ++ r) = some (x, r) := by
  obtain ⟨adjs⟩ := x
  obtain ⟨hne, hv⟩ := hx
  cases adjs with
  | nil => exact absurd rfl hne
  | cons a rest =>
    have hin : TimeZone.print ⟨a :: rest⟩ ++ r = ['z', '='] ++ adjSeg (a :: rest) r := by
      simp [TimeZone.print, adjSeg]
    unfold time_zone preceded
    rw [hin]
    rw [pmap_some (by
      rw [pbind_some (tag_consume ['z', '='] _)]
      unfold many1
      rw [pbind_some (adj_unit_consume a rest r (hv a (by simp)))]
      rw [adj_many0_consume rest r (fun y hy => hv y (by simp [hy])) hr])]

theorem time_zone_fail {s : List Char} (h : HeadNe 'z' s) : time_zone s = none := by
  unfold time_zone preceded
  rw [pmap_none (pbind_none (tag_fail h))]

end Sdp

namespace Sdp

open NomC Numeral

theorem method_tag_consume (m : RetrievalMethod) (r : List Char) :
    alt (tag ['b', 'a', 's', 'e', '6', '4'])
      (alt (tag ['c', 'l', 'e', 'a', 'r'])
        (alt (tag ['p', 'r', 'o', 'm', 'p', 't']) (tag ['u', 'r', 'i'])))
      (m.print ++ r) = some (m.print, r) := by
  cases m with
  | base64 => exact alt_first (tag_consume _ r)
  | clear =>
    rw [alt_second (by simp [tag, RetrievalMethod.print, List.isPrefixOf])]
    exact alt_first (tag_consume _ r)
  | prompt =>
    rw [alt_second (by simp [tag, RetrievalMethod.print, List.isPrefixOf])]
    rw [alt_second (by simp [tag, RetrievalMethod.print, List.isPrefixOf])]
    exact alt_first (tag_consume _ r)
  | uri =>
    rw [alt_second (by simp [tag, RetrievalMethod.print, List.isPrefixOf])]
    rw [alt_second (by simp [tag, RetrievalMethod.print, List.isPrefixOf])]
    rw [alt_second (by simp [tag, RetrievalMethod.print, List.isPrefixOf])]
    exact tag_consume _ r

theorem methodOf_print (m : RetrievalMethod) : methodOf m.print = m := by
  cases m <;> decide

theorem encryption_key_consume (x : EncryptionKey) (r : List Char)
    (hx : x.Valid) :
    encryption_key (EncryptionKey.print x ++ r) = some (x, r) := by
  obtain ⟨m, data⟩ := x
  cases data with
  | none =>
    have hin : EncryptionKey.print ⟨m, none⟩ ++ r =
        ['k', '='] ++ (m.print ++ (crlf ++ r)) := by
      simp [EncryptionKey.print]
    unfold encryption_key delimited
    rw [hin]
    rw [pmap_some (by
      rw [pbind_some (tag_consume ['k', '='] _)]
      rw [pbind_some (by
        unfold pair
        rw [pbind_some (method_tag_consume m _)]
        refine pmap_some (opt_none ?_)
        unfold preceded
        refine pbind_none (by
          rw [crlf_cons]
          exact tag_fail (show ('\r') ≠ ':' by decide)))]
      exact pmap_some (line_ending_consume r))]
    simp [methodOf_print]
  | some s =>
    have hns : NoCrLf s := hx s rfl
    have hin : EncryptionKey.print ⟨m, some s⟩ ++ r =
        ['k', '='] ++ (m.print ++ (':' :: (s ++ (crlf ++ r)))) := by
      simp [EncryptionKey.print]
    have hopt : opt (preceded (tag [':']) not_line_ending)
        (':' :: (s ++ (crlf ++ r))) = some (some s, crlf ++ r) := by
      refine opt_some ?_
      unfold preceded
      rw [pbind_some (show tag [':'] (':' :: (s ++ (crlf ++ r))) =
        some ([':'], s ++ (crlf ++ r)) from tag_consume [':'] _)]
      exact rest_of_line_consume s r hns
    unfold encryption_key delimited
    rw [hin]
    rw [pmap_some (by
      rw [pbind_some (tag_consume ['k', '='] _)]
      rw [pbind_some (by
        unfold pair
        rw [pbind_some (method_tag_consume m _)]
        exact pmap_some hopt)]
      exact pmap_some (line_ending_consume r))]
    simp [methodOf_print]

theorem encryption_key_fail {s : List Char} (h : HeadNe 'k' s) :
    encryption_key s = none := by
  unfold encryption_key delimited
  rw [pmap_none (pbind_none (tag_fail h))]

theorem take_till1_post {f : Char → Bool} {i pre post : List Char}
    (h : take_till1 f i = some (pre, post)) :
    post = i.dropWhile (fun c => !f c) := by
  unfold take_till1 at h
  rcases htw : i.takeWhile (fun c => !f c) with _ | ⟨c, t⟩ <;> rw [htw] at h
  · exact absurd h (by simp)
  · exact (Prod.mk.injEq _ _ _ _ ▸ (Option.some.injEq _ _ ▸ h)).2.symm

theorem dropWhile_head_not_colon (p : List Char) (r : List Char)
    (hp : ∀ c ∈ p, c ≠ ':') :
    ∃ w tail, (p ++ '\r' :: '\n' :: r).dropWhile
        (fun c => !(c == ':' || isRustWhitespace c)) = w :: tail ∧ w ≠ ':' := by
  induction p with
  | nil =>
    refine ⟨'\r', '\n' :: r, ?_, by decide⟩
    have hf : (!(('\r' == ':') || isRustWhitespace '\r')) = false := by decide
    simp only [List.nil_append, List.dropWhile]
    rw [hf]
  | cons c p ih =>
    by_cases hc : (c == ':' || isRustWhitespace c) = true
    · refine ⟨c, p ++ '\r' :: '\n' :: r, ?_, hp c (by simp)⟩
      simp [List.dropWhile, hc]
    · have hc' : (!(c == ':' || isRustWhitespace c)) = true := by
        simp only [Bool.not_eq_true'] at hc ⊢
        exact Bool.not_eq_true _ ▸ (by simpa using hc)
      obtain ⟨w, tail, hw, hwc⟩ := ih (fun d hd => hp d (by simp [hd]))
      refine ⟨w, tail, ?_, hwc⟩
      simp only [List.cons_append, List.dropWhile]
      rw [hc']
      exact hw

theorem value_attribute_fail_nocolon (p : List Char) (r : List Char)
    (hp : ∀ c ∈ p, c ≠ ':') :
    value_attribute (p ++ '\r' :: '\n' :: r) = none := by
  unfold value_attribute pair preceded
  rcases htt : take_till1 (fun c => c == ':' || isRustWhitespace c)
      (p ++ '\r' :: '\n' :: r) with _ | ⟨pre, post⟩
  · exact pmap_none (pbind_none htt)
  · obtain ⟨w, tail, hw, hwc⟩ := dropWhile_head_not_colon p r hp
    have hpost : post = w :: tail := by rw [take_till1_post htt]; exact hw
    refine pmap_none (?_)
    rw [pbind_some htt, hpost]
    exact pmap_none (pbind_none (tag_fail hwc))

theorem sdp_attribute_consume (a : Attribute) (r : List Char) (ha : a.Valid) :
    sdp_attribute (Attribute.print a ++ r) = some (a, r) := by
  cases a with
  | property p =>
    have hin : Attribute.print (.property p) ++ r =
        ['a', '='] ++ (p ++ ('\r' :: '\n' :: r)) := by
      simp [Attribute.print, crlf]
    have hnle : not_line_ending (p ++ ('\r' :: '\n' :: r)) =
        some (p, crlf ++ r) :=
      rest_of_line_consume p r (fun c hc => ⟨(ha c hc).2.1, (ha c hc).2.2⟩)
    have hprop : alt value_attribute property_attribute
        (p ++ ('\r' :: '\n' :: r)) = some (Attribute.property p, crlf ++ r) := by
      rw [alt_second (value_attribute_fail_nocolon p r (fun c hc => (ha c hc).1))]
      unfold property_attribute
      exact pmap_some hnle
    unfold sdp_attribute delimited
    rw [hin]
    rw [pbind_some (tag_consume ['a', '='] _)]
    rw [pbind_some hprop]
    rw [pmap_some (line_ending_consume r)]
  | value k v =>
    obtain ⟨hk, hkc, hv⟩ := ha
    have hin : Attribute.print (.value k v) ++ r =
        ['a', '='] ++ (k ++ (':' :: (v ++ (crlf ++ r)))) := by
      simp [Attribute.print, crlf]
    have hq : pbind (tag [':']) (fun _ => not_line_ending)
        (':' :: (v ++ (crlf ++ r))) = some (v, crlf ++ r) := by
      rw [pbind_some (show tag [':'] (':' :: (v ++ (crlf ++ r))) =
        some ([':'], v ++ (crlf ++ r)) from tag_consume [':'] _)]
      exact rest_of_line_consume v r hv
    have hval : alt value_attribute property_attribute
        (k ++ (':' :: (v ++ (crlf ++ r)))) = some (Attribute.value k v, crlf ++ r) := by
      refine alt_first ?_
      unfold value_attribute pair preceded
      rw [pmap_some (by
        rw [pbind_some (take_till1_consume (':' :: (v ++ (crlf ++ r))) hk
          (fun c hc => hkc c hc) (fun c t ht => by cases ht; simp))]
        exact pmap_some hq)]
    unfold sdp_attribute delimited
    rw [hin]
    rw [pbind_some (tag_consume ['a', '='] _)]
    rw [pbind_some hval]
    rw [pmap_some (line_ending_consume r)]

theorem sdp_attribute_fail {s : List Char} (h : HeadNe 'a' s) :
    sdp_attribute s = none := by
  unfold sdp_attribute delimited
  rw [pbind_none (tag_fail h)]

end Sdp

namespace Sdp

open NomC Numeral

theorem media_consume (x : Media) (r : List Char) (hx : x.Valid) :
    media (Media.print x ++ r) = some (x, r) := by
  obtain ⟨hport, hproto, hfmt⟩ := hx
  have hin : Media.print x ++ r =
      ['m', '='] ++ (x.typ.print ++ (' ' :: (natPrint x.port ++ (' ' ::
        (x.protocol ++ (' ' :: (x.format ++ (crlf ++ r)))))))) := by
    simp [Media.print, crlf]
  unfold media
  rw [hin]
  rw [pbind_some (by
    unfold preceded
    rw [pbind_some (tag_consume ['m', '='] _)]
    exact media_type_tag_consume x.typ _)]
  rw [pbind_some (by
    unfold preceded
    rw [pbind_some (tag_space _)]
    exact digit1_print x.port _ (headNotDigit_space _))]
  rw [pbind_some (by
    unfold preceded
    rw [pbind_some (tag_space _)]
    exact token_consume x.protocol _ hproto)]
  rw [pmap_some (by
    unfold delimited
    rw [pbind_some (tag_space _)]
    rw [pbind_some (rest_of_line_consume x.format r hfmt)]
    exact pmap_some (line_ending_consume r))]
  simp [digitsVal_natPrint, mediaTypeOf_print]

theorem media_fail {s : List Char} (h : HeadNe 'm' s) : media s = none := by
  unfold media preceded
  rw [pbind_none (pbind_none (tag_fail h))]

theorem version_print_head (x : Version) : ∃ t, Version.print x = 'v' :: t :=
  ⟨_, rfl⟩

theorem origin_print_head (x : Origin) : ∃ t, Origin.print x = 'o' :: t :=
  ⟨_, rfl⟩

theorem session_name_print_head (x : SessionName) :
    ∃ t, SessionName.print x = 's' :: t := ⟨_, rfl⟩

theorem session_information_print_head (x : SessionInformation) :
    ∃ t, SessionInformation.print x = 'i' :: t := ⟨_, rfl⟩

theorem uri_print_head (x : URI) : ∃ t, URI.print x = 'u' :: t := ⟨_, rfl⟩

theorem email_print_head (x : EmailAddress) :
    ∃ t, EmailAddress.print x = 'e' :: t := ⟨_, rfl⟩

theorem phone_print_head (x : PhoneNumber) :
    ∃ t, PhoneNumber.print x = 'p' :: t := ⟨_, rfl⟩

theorem connection_print_head (x : Connection) :
    ∃ t, Connection.print x = 'c' :: t := ⟨_, rfl⟩

theorem bandwidth_print_head (x : Bandwidth) :
    ∃ t, Bandwidth.print x = 'b' :: t := ⟨_, rfl⟩

theorem repeat_print_head (x : RepeatTime) :
    ∃ t, RepeatTime.print x = 'r' :: t := ⟨_, rfl⟩

theorem time_description_print_head (x : TimeDescription) :
    ∃ t, TimeDescription.print x = 't' :: t := ⟨_, rfl⟩

theorem time_zone_print_head (x : TimeZone) (hx : x.Valid) :
    ∃ t, TimeZone.print x = 'z' :: t := by
  cases hadj : x.adjustments with
  | nil => exact absurd hadj hx.1
  | cons a rest =>
    refine ⟨'=' :: (a.print ++
      (catPrint (fun b => ' ' :: Adjustment.print b) rest ++ crlf)), ?_⟩
    unfold TimeZone.print
    rw [hadj]
    simp

theorem encryption_key_print_head (x : EncryptionKey) :
    ∃ t, EncryptionKey.print x = 'k' :: t := by
  cases x with
  | mk m data => cases m <;> cases data <;> exact ⟨_, rfl⟩

theorem attribute_print_head (x : Attribute) :
    ∃ t, Attribute.print x = 'a' :: t := by
  cases x <;> exact ⟨_, rfl⟩

theorem media_print_head (x : Media) : ∃ t, Media.print x = 'm' :: t :=
  ⟨_, rfl⟩

theorem media_description_print_head (x : MediaDescription) :
    ∃ t, MediaDescription.print x = 'm' :: t := by
  obtain ⟨t, ht⟩ := media_print_head x.media
  exact ⟨t ++ (optPrint SessionInformation.print x.title ++
    (optPrint Connection.print x.connection ++
      (catPrint Bandwidth.print x.bandwidths ++
        (optPrint EncryptionKey.print x.encryption_key ++
          catPrint Attribute.print x.attributes)))), by
    unfold MediaDescription.print
    rw [ht]
    simp⟩

theorem opt_print_consumeC {α : Type} {p : P α} {prnt : α → List Char}
    {P : α → Prop} (C : List Char → Prop) (o : Option α) (rest : List Char)
    (hcons : ∀ x, P x → ∀ r, C r → p (prnt x ++ r) = some (x, r))
    (hfail : p rest = none) (hv : OptValid P o) (hC : C rest) :
    opt p (optPrint prnt o ++ rest) = some (o, rest) := by
  cases o with
  | none => simpa [optPrint] using opt_none hfail
  | some x =>
    rw [show optPrint prnt (some x) = prnt x from rfl]
    exact opt_some (hcons x hv rest hC)

theorem media_description_consume (x : MediaDescription) (r : List Char)
    (hx : x.Valid) (hr : HeadIn ['m'] r) :
    media_description (MediaDescription.print x ++ r) = some (x, r) := by
  obtain ⟨hm, hti, hco, hbw, hek, hat⟩ := hx
  have hS5 : HeadIn ['a', 'm'] (catPrint Attribute.print x.attributes ++ r) :=
    headIn_catPrint (fun a _ => attribute_print_head a) (by simp)
      (hr.mono (by simp))
  have hS4 : HeadIn ['k', 'a', 'm'] (optPrint EncryptionKey.print
      x.encryption_key ++ (catPrint Attribute.print x.attributes ++ r)) :=
    headIn_optPrint (fun k _ => encryption_key_print_head k) (by simp)
      (hS5.mono (by simp))
  have hS3 : HeadIn ['b', 'k', 'a', 'm'] (catPrint Bandwidth.print x.bandwidths ++
      (optPrint EncryptionKey.print x.encryption_key ++
        (catPrint Attribute.print x.attributes ++ r))) :=
    headIn_catPrint (fun b _ => bandwidth_print_head b) (by simp)
      (hS4.mono (by simp))
  have hS2 : HeadIn ['c', 'b', 'k', 'a', 'm'] (optPrint Connection.print
      x.connection ++ (catPrint Bandwidth.print x.bandwidths ++
        (optPrint EncryptionKey.print x.encryption_key ++
          (catPrint Attribute.print x.attributes ++ r)))) :=
    headIn_optPrint (fun c _ => connection_print_head c) (by simp)
      (hS3.mono (by simp))
  unfold media_description MediaDescription.print
  simp only [List.append_assoc]
  rw [pbind_some (media_consume x.media _ hm)]
  rw [pbind_some (opt_print_consumeC (fun _ => True) x.title _
    (fun y hy r' _ => session_information_consume y r' hy)
    (session_information_fail (hS2.headNe (by decide))) hti trivial)]
  rw [pbind_some (opt_print_consumeC (fun _ => True) x.connection _
    (fun y hy r' _ => connection_consume y r' hy)
    (connection_fail (hS3.headNe (by decide))) hco trivial)]
  rw [pbind_some (many0_consume_list Bandwidth.print x.bandwidths _
    (fun y hy r' => bandwidth_consume y r' (hbw y hy))
    (fun y _ => by obtain ⟨t, ht⟩ := bandwidth_print_head y; simp [ht])
    (bandwidth_fail (hS4.headNe (by decide))))]
  rw [pbind_some (opt_print_consumeC (fun _ => True) x.encryption_key _
    (fun y hy r' _ => encryption_key_consume y r' hy)
    (encryption_key_fail (hS5.headNe (by decide))) hek trivial)]
  rw [pmap_some (many0_consume_list Attribute.print x.attributes r
    (fun y hy r' => sdp_attribute_consume y r' (hat y hy))
    (fun y _ => by obtain ⟨t, ht⟩ := attribute_print_head y; simp [ht])
    (sdp_attribute_fail (hr.headNe (by decide))))]

theorem media_description_fail {s : List Char} (h : HeadNe 'm' s) :
    media_description s = none := by
  unfold media_description
  rw [pbind_none (media_fail h)]

end Sdp

namespace Sdp

open NomC Numeral

theorem session_description_consume (x : SessionDescription) (hx : x.Valid) :
    session_description (SessionDescription.print x) = some (x, []) := by
  obtain ⟨hver, hori, hsn, hsi, hu, hem, hph, hco, hbw, htd, htz, hek, hat, hmd⟩ := hx
  have hS13 : HeadIn ['m'] (catPrint MediaDescription.print x.media_descriptions) := by
    have := @headIn_catPrint _ MediaDescription.print x.media_descriptions
      [] ['m'] 'm'
      (fun y _ => media_description_print_head y) (by simp) (headIn_nil _)
    rwa [List.append_nil] at this
  have hS12 : HeadIn ['a', 'm'] (catPrint Attribute.print x.attributes ++
      catPrint MediaDescription.print x.media_descriptions) :=
    headIn_catPrint (fun y _ => attribute_print_head y) (by simp)
      (hS13.mono (by simp))
  have hS11 : HeadIn ['k', 'a', 'm'] (optPrint EncryptionKey.print x.encryption_key ++
      (catPrint Attribute.print x.attributes ++
        catPrint MediaDescription.print x.media_descriptions)) :=
    headIn_optPrint (fun y _ => encryption_key_print_head y) (by simp)
      (hS12.mono (by simp))
  have hS10 : HeadIn ['z', 'k', 'a', 'm'] (optPrint TimeZone.print x.time_zone ++
      (optPrint EncryptionKey.print x.encryption_key ++
        (catPrint Attribute.print x.attributes ++
          catPrint MediaDescription.print x.media_descriptions))) :=
    headIn_optPrint (fun y hy => time_zone_print_head y (by
      cases hzz : x.time_zone with
      | none => simp [hzz] at hy
      | some z => rw [hzz] at hy; cases hy; simpa [hzz, OptValid] using htz))
      (by simp) (hS11.mono (by simp))
  have hS9 : HeadIn ['t'] (TimeDescription.print x.time_description ++
      (optPrint TimeZone.print x.time_zone ++
        (optPrint EncryptionKey.print x.encryption_key ++
          (catPrint Attribute.print x.attributes ++
            catPrint MediaDescription.print x.media_descriptions)))) :=
    headIn_print (time_description_print_head x.time_description) (by simp)
  have hS8 : HeadIn ['b', 't'] (catPrint Bandwidth.print x.bandwidths ++
      (TimeDescription.print x.time_description ++
        (optPrint TimeZone.print x.time_zone ++
          (optPrint EncryptionKey.print x.encryption_key ++
            (catPrint Attribute.print x.attributes ++
              catPrint MediaDescription.print x.media_descriptions))))) :=
    headIn_catPrint (fun y _ => bandwidth_print_head y) (by simp)
      (hS9.mono (by simp))
  have hS7 : HeadIn ['c', 'b', 't'] (optPrint Connection.print x.connection ++
      (catPrint Bandwidth.print x.bandwidths ++
        (TimeDescription.print x.time_description ++
          (optPrint TimeZone.print x.time_zone ++
            (optPrint EncryptionKey.print x.encryption_key ++
              (catPrint Attribute.print x.attributes ++
                catPrint MediaDescription.print x.media_descriptions)))))) :=
    headIn_optPrint (fun y _ => connection_print_head y) (by simp)
      (hS8.mono (by simp))
  have hS6 : HeadIn ['p', 'c', 'b', 't'] (catPrint PhoneNumber.print x.phone_numbers ++
      (optPrint Connection.print x.connection ++
        (catPrint Bandwidth.print x.bandwidths ++
          (TimeDescription.print x.time_description ++
            (optPrint TimeZone.print x.time_zone ++
              (optPrint EncryptionKey.print x.encryption_key ++
                (catPrint Attribute.print x.attributes ++
                  catPrint MediaDescription.print x.media_descriptions))))))) :=
    headIn_catPrint (fun y _ => phone_print_head y) (by simp)
      (hS7.mono (by simp))
  have hS5 : HeadIn ['e', 'p', 'c', 'b', 't']
      (catPrint EmailAddress.print x.email_addresses ++
        (catPrint PhoneNumber.print x.phone_numbers ++
          (optPrint Connection.print x.connection ++
            (catPrint Bandwidth.print x.bandwidths ++
              (TimeDescription.print x.time_description ++
                (optPrint TimeZone.print x.time_zone ++
                  (optPrint EncryptionKey.print x.encryption_key ++
                    (catPrint Attribute.print x.attributes ++
                      catPrint MediaDescription.print x.media_descriptions)))))))) :=
    headIn_catPrint (fun y _ => email_print_head y) (by simp)
      (hS6.mono (by simp))
  have hS4 : HeadIn ['u', 'e', 'p', 'c', 'b', 't'] (optPrint URI.print x.uri ++
      (catPrint EmailAddress.print x.email_addresses ++
        (catPrint PhoneNumber.print x.phone_numbers ++
          (optPrint Connection.print x.connection ++
            (catPrint Bandwidth.print x.bandwidths ++
              (TimeDescription.print x.time_description ++
                (optPrint TimeZone.print x.time_zone ++
                  (optPrint EncryptionKey.print x.encryption_key ++
                    (catPrint Attribute.print x.attributes ++
                      catPrint MediaDescription.print x.media_descriptions))))))))) :=
    headIn_optPrint (fun y _ => uri_print_head y) (by simp)
      (hS5.mono (by simp))
  unfold session_description SessionDescription.print
  rw [pbind_some (version_consume x.version _)]
  rw [pbind_some (origin_consume x.origin _ hori)]
  rw [pbind_some (session_name_consume x.session_name _ hsn)]
  rw [pbind_some (opt_print_consumeC (fun _ => True) x.session_information _
    (fun y hy r' _ => session_information_consume y r' hy)
    (session_information_fail (hS4.headNe (by decide))) hsi trivial)]
  rw [pbind_some (opt_print_consumeC (fun _ => True) x.uri _
    (fun y hy r' _ => uri_consume y r' hy)
    (uri_fail (hS5.headNe (by decide))) hu trivial)]
  rw [pbind_some (many0_consume_list EmailAddress.print x.email_addresses _
    (fun y hy r' => email_address_consume y r' (hem y hy))
    (fun y _ => by obtain ⟨t, ht⟩ := email_print_head y; simp [ht])
    (email_address_fail (hS6.headNe (by decide))))]
  rw [pbind_some (many0_consume_list PhoneNumber.print x.phone_numbers _
    (fun y hy r' => phone_number_consume y r' (hph y hy))
    (fun y _ => by obtain ⟨t, ht⟩ := phone_print_head y; simp [ht])
    (phone_number_fail (hS7.headNe (by decide))))]
  rw [pbind_some (opt_print_consumeC (fun _ => True) x.connection _
    (fun y hy r' _ => connection_consume y r' hy)
    (connection_fail (hS8.headNe (by decide))) hco trivial)]
  rw [pbind_some (many0_consume_list Bandwidth.print x.bandwidths _
    (fun y hy r' => bandwidth_consume y r' (hbw y hy))
    (fun y _ => by obtain ⟨t, ht⟩ := bandwidth_print_head y; simp [ht])
    (bandwidth_fail (hS9.headNe (by decide))))]
  rw [pbind_some (time_description_consume x.time_description _ htd
    (hS10.headNe (by decide)))]
  rw [pbind_some (opt_print_consumeC HeadNotDigit x.time_zone _
    (fun y hy r' hr' => time_zone_consume y r' hy hr')
    (time_zone_fail (hS11.headNe (by decide))) htz
    (hS11.notDigit (by decide)))]
  rw [pbind_some (opt_print_consumeC (fun _ => True) x.encryption_key _
    (fun y hy r' _ => encryption_key_consume y r' hy)
    (encryption_key_fail (hS12.headNe (by decide))) hek trivial)]
  rw [pbind_some (many0_consume_list Attribute.print x.attributes _
    (fun y hy r' => sdp_attribute_consume y r' (hat y hy))
    (fun y _ => by obtain ⟨t, ht⟩ := attribute_print_head y; simp [ht])
    (sdp_attribute_fail (hS13.headNe (by decide))))]
  have hmds : many0 media_description
      (catPrint MediaDescription.print x.media_descriptions) =
      some (x.media_descriptions, []) := by
    have := many0_consume_listC MediaDescription.print (HeadIn ['m'])
      x.media_descriptions []
      (fun y hy r' hr' => media_description_consume y r' (hmd y hy) hr')
      (fun y _ => by obtain ⟨t, ht⟩ := media_description_print_head y; simp [ht])
      (fun y _ r' _ => headIn_print (media_description_print_head y) (by simp))
      (headIn_nil _)
      (media_description_fail trivial)
    rwa [List.append_nil] at this
  rw [pmap_some hmds]

/-- `SessionDescription::from_str` recovers any valid session description
from its own serialization. -/
theorem from_str_print (x : SessionDescription) (hx : x.Valid) :
    from_str (SessionDescription.print x) = some x := by
  unfold from_str all_consuming
  rw [session_description_consume x hx]

end Sdp

namespace Sdp

/-- A session description built with the public constructors whose time
zone holds an adjustment offset of sixty seconds. -/
def cexSd : SessionDescription :=
  { SessionDescription.base ⟨0⟩
      ⟨['-'], 0, 0, ['I', 'N'], ['I', 'P', '4'], ['1']⟩
      ⟨['-']⟩ (TimeDescription.base ⟨0, 0⟩) with
    time_zone := some ⟨[⟨0, 60⟩]⟩ }

def witSd : SessionDescription :=
  ((SessionDescription.base ⟨0⟩
      ⟨['-'], 1433, 3, ['I', 'N'], ['I', 'P', '4'], ['1', '2', '7', '.', '0', '.', '0', '.', '1']⟩
      ⟨['-']⟩ ((TimeDescription.base ⟨0, 0⟩).and_repeat_time ⟨604800, 3600, [0, 90000]⟩)).with_connection
      ⟨['I', 'N'], ['I', 'P', '4'], ['1', '2', '7', '.', '0', '.', '0', '.', '1']⟩).with_attributes
      [Attribute.propertyOf ['r', 'e', 'c', 'v', 'o', 'n', 'l', 'y'],
        Attribute.valueOf ['g', 'r', 'o', 'u', 'p'] ['B', 'U', 'N', 'D', 'L', 'E', ' ', '0']]
    |>.and_media_description
      (((MediaDescription.base ⟨.audio, 49170, ['R', 'T', 'P'], ['0']⟩).with_bandwidths
          [⟨.CT, 42⟩, ⟨.Experimental ['Y', 'Z'], 128⟩]).with_encryption_key
          ⟨.prompt, none⟩ |>.and_attribute
          (Attribute.valueOf ['r', 't', 'p'] ['9', '9']))
    |>.and_media_description (MediaDescription.base ⟨.video, 51372, ['R', 'T', 'P'], ['9', '9']⟩)

def witSd2 : SessionDescription :=
  { witSd with
      session_information := some ⟨['i', 'n', 'f', 'o']⟩,
      uri := some ⟨['h', 't', 't', 'p']⟩,
      email_addresses := [⟨['a', '@', 'b']⟩],
      phone_numbers := [⟨['+', '1']⟩],
      time_zone := some ⟨[⟨2882844526, -3600⟩, ⟨2898848070, 0⟩, ⟨7, 7200⟩]⟩,
      encryption_key := some ⟨.clear, some ['k', 'e', 'y']⟩ }

end Sdp

namespace NomB

/-- Result of running a byte-level parser from the monolithic STUN module:
a parsed value with the unconsumed remainder, a recoverable nom error, or
a Rust panic (`unimplemented!()` or a failing `unwrap`/slice index). -/
inductive PRes (α : Type) where
  | ok : α → List Nat → PRes α
  | err : PRes α
  | panic : PRes α
deriving DecidableEq, Repr

/-- Byte-level parser over octet lists. -/
abbrev BP (α : Type) : Type := List Nat → PRes α

/-- Sequencing; errors and panics propagate. -/
def bbind (p : BP α) (f : α → BP β) : BP β := fun input =>
  match p input with
  | .ok a rest => f a rest
  | .err => .err
  | .panic => .panic

/-- nom `map` over bytes. -/
def bmap (p : BP α) (f : α → β) : BP β := fun input =>
  match p input with
  | .ok a rest => .ok (f a) rest
  | .err => .err
  | .panic => .panic

/-- nom `tag` over bytes. -/
def btag (t : List Nat) : BP (List Nat) := fun input =>
  if t.isPrefixOf input then .ok t (input.drop t.length) else .err

/-- nom `take` over bytes. -/
def btake (n : Nat) : BP (List Nat) := fun input =>
  if n ≤ input.length then .ok (input.take n) (input.drop n) else .err

/-- nom `be_u16`. -/
def be_u16 : BP Nat := fun input =>
  match input with
  | b0 :: b1 :: rest => .ok (b0 * 256 + b1) rest
  | _ => .err

/-- nom `length_data(be_u16)`. -/
def length_data_u16 : BP (List Nat) := bbind be_u16 fun n => btake n

/-- nom `terminated` over bytes. -/
def bterminated (p : BP α) (q : BP β) : BP α :=
  bbind p fun a => bmap q fun _ => a

/-- nom `map_parser`: run `inner` on the slice produced by `outer`; the
slice's own leftover is discarded. -/
def map_parserB (outer : BP (List Nat)) (inner : BP α) : BP α :=
  bbind outer fun bytes => fun rest =>
    match inner bytes with
    | .ok a _ => .ok a rest
    | .err => .err
    | .panic => .panic

/-- nom `all_consuming` over bytes. -/
def ball_consuming (p : BP α) : BP α := fun input =>
  match p input with
  | .ok a [] => .ok a []
  | .ok _ (_ :: _) => .err
  | .err => .err
  | .panic => .panic

/-- Fuel-indexed body of nom `many0` over bytes; panics propagate out of
the loop, an error ends it. -/
def bmany0F (p : BP α) : Nat → BP (List α)
  | 0 => fun _ => .err
  | fuel + 1 => fun input =>
    match p input with
    | .err => .ok [] input
    | .panic => .panic
    | .ok a rest =>
      if rest.length < input.length then
        match bmany0F p fuel rest with
        | .ok as rem => .ok (a :: as) rem
        | .err => .err
        | .panic => .panic
      else .err

/-- nom `many0` over bytes. -/
def bmany0 (p : BP α) : BP (List α) := fun input => bmany0F p (input.length + 1) input

end NomB

namespace Utf8

/-- One character encoded as UTF-8, as Rust `str::as_bytes` exposes it. -/
def utf8EncodeChar (c : Char) : List Nat :=
  let n := c.toNat
  if n < 0x80 then [n]
  else if n < 0x800 then [0xC0 + n / 64, 0x80 + n % 64]
  else if n < 0x10000 then [0xE0 + n / 4096, 0x80 + n / 64 % 64, 0x80 + n % 64]
  else [0xF0 + n / 262144, 0x80 + n / 4096 % 64, 0x80 + n / 64 % 64, 0x80 + n % 64]

/-- UTF-8 encoding of a string. -/
def utf8Encode (s : List Char) : List Nat := (s.map utf8EncodeChar).flatten

/-- Whether a byte is a UTF-8 continuation byte. -/
def isCont (b : Nat) : Bool := 0x80 ≤ b && b < 0xC0

/-- Fuel-indexed strict UTF-8 decoder, with the validity rules
`String::from_utf8` enforces: no overlong forms, no surrogates, no code
points beyond U+10FFFF. -/
def utf8DecodeF : Nat → List Nat → Option (List Char)
  | 0, [] => some []
  | 0, _ :: _ => none
  | _ + 1, [] => some []
  | fuel + 1, b0 :: rest =>
    if b0 < 0x80 then
      (utf8DecodeF fuel rest).map (Char.ofNat b0 :: ·)
    else if b0 < 0xC2 then none
    else if b0 < 0xE0 then
      match rest with
      | b1 :: rest' =>
        if isCont b1 then
          (utf8DecodeF fuel rest').map (Char.ofNat ((b0 - 0xC0) * 64 + (b1 - 0x80)) :: ·)
        else none
      | _ => none
    else if b0 < 0xF0 then
      match rest with
      | b1 :: b2 :: rest' =>
        let cp := (b0 - 0xE0) * 4096 + (b1 - 0x80) * 64 + (b2 - 0x80)
        if isCont b1 && isCont b2 && decide (0x800 ≤ cp) &&
            !(decide (0xD800 ≤ cp) && decide (cp < 0xE000)) then
          (utf8DecodeF fuel rest').map (Char.ofNat cp :: ·)
        else none
      | _ => none
    else if b0 < 0xF5 then
      match rest with
      | b1 :: b2 :: b3 :: rest' =>
        let cp := (b0 - 0xF0) * 262144 + (b1 - 0x80) * 4096 +
          (b2 - 0x80) * 64 + (b3 - 0x80)
        if isCont b1 && isCont b2 && isCont b3 && decide (0x10000 ≤ cp) &&
            decide (cp < 0x110000) then
          (utf8DecodeF fuel rest').map (Char.ofNat cp :: ·)
        else none
      | _ => none
    else none

/-- Strict UTF-8 decoding, `String::from_utf8`. -/
def utf8Decode (bs : List Nat) : Option (List Char) := utf8DecodeF bs.length bs

end Utf8

namespace Stun

open NomB Utf8

/-- Magic cookie of RFC 5389. -/
def MAGIC_COOKIE : Nat := 0x2112A442

/-- XOR mask applied to the FINGERPRINT CRC. -/
def FINGERPRINT_COOKIE : Nat := 0x5354554E

/-- STUN methods recognized by the monolithic codec: only Binding. -/
inductive Method where
  | binding : Method
deriving DecidableEq, Repr

/-- STUN classes. -/
inductive Class where
  | error : Class
  | indication : Class
  | request : Class
  | success : Class
deriving DecidableEq, Repr

/-- STUN message header; `length` is a `u16`, `transaction_id` a byte
vector (twelve bytes on the wire). -/
structure Header where
  cls : Class
  method : Method
  length : Nat
  transaction_id : List Nat
deriving DecidableEq, Repr

/-- Big-endian bytes of a `u16`. -/
def u16be (n : Nat) : List Nat := [n / 256 % 256, n % 256]

/-- Big-endian bytes of a `u32`. -/
def u32be (n : Nat) : List Nat :=
  [n / 16777216 % 256, n / 65536 % 256, n / 256 % 256, n % 256]

/-- Value of four big-endian bytes. -/
def u32OfBytes (bs : List Nat) : Nat :=
  match bs with
  | [b0, b1, b2, b3] => b0 * 16777216 + b1 * 65536 + b2 * 256 + b3
  | _ => 0

/-- `message_type`: the bit-level parser for the leading two bytes.  The
five method fields are reassembled in `u8` arithmetic, exactly as the
source does (`(m_11_7 << 6) | (m_6_4 << 3) | m_3_0` on `u8` wraps), and an
unrecognized method number hits `unimplemented!()` — a panic. -/
def message_type : BP (Class × Method) := fun input =>
  match input with
  | b0 :: b1 :: rest =>
    let w := b0 * 256 + b1
    if w / 16384 % 4 = 0 then
      let m_11_7 := w / 512 % 32
      let c_1 := w / 256 % 2
      let m_6_4 := w / 32 % 8
      let c_0 := w / 16 % 2
      let m_3_0 := w % 16
      let c := c_1 * 2 + c_0
      let cls : Class :=
        if c = 0 then .request
        else if c = 1 then .indication
        else if c = 2 then .success
        else .error
      let m := m_11_7 * 64 % 256 ||| m_6_4 * 8 ||| m_3_0
      if m = 1 then .ok (cls, .binding) rest else .panic
    else .err
  | _ => .err

/-- `Header::to_bytes`. -/
def Header.to_bytes (h : Header) : List Nat :=
  let c : Nat :=
    match h.cls with
    | .request => 0
    | .indication => 1
    | .success => 2
    | .error => 3
  let m : Nat :=
    match h.method with
    | .binding => 1
  let c_0 := c % 2
  let c_1 := c / 2
  let m_3_0 := m % 16
  let m_6_4 := m / 16 % 8
  let m_11_7 := m / 128 % 32
  let mt := m_11_7 * 512 + c_1 * 256 + m_6_4 * 32 + c_0 * 16 + m_3_0
  u16be mt ++ u16be h.length ++ u32be MAGIC_COOKIE ++ h.transaction_id

/-- `header`: parse the twenty-byte message header. -/
def headerP : BP Header :=
  bbind (map_parserB (btake 2) message_type) fun cm =>
  bbind (bterminated be_u16 (btag (u32be MAGIC_COOKIE))) fun len =>
  bmap (btake 12) fun tid => ⟨cm.1, cm.2, len, tid⟩

/-- The monolithic attribute sum type.  The source stores the
XOR-MAPPED-ADDRESS address as `IpAddr`, of which only the v4 form is
implemented; it is held here as the 32-bit address value. -/
inductive Attribute where
  | comprehensionOptional : List Nat → Attribute
  | fingerprint : Nat → Attribute
  | messageIntegrity : List Nat → Attribute
  | priority : Nat → Attribute
  | username : List Char → Attribute
  | xorMappedAddress : Nat → Nat → Attribute
deriving DecidableEq, Repr

/-- `fingerprint_to_bytes`: type 0x8028, length 4, the checksum bytes. -/
def fingerprint_to_bytes (checksum : Nat) : List Nat :=
  u16be 0x8028 ++ u16be 4 ++ u32be checksum

/-- `message_integrity_to_bytes`: type 0x0008, the code's length, the
code bytes. -/
def message_integrity_to_bytes (code : List Nat) : List Nat :=
  u16be 0x0008 ++ u16be code.length ++ code

/-- `username_to_bytes`: type 0x0006, the UTF-8 length, the UTF-8 bytes —
and no padding: the monolithic serializer does not pad the value. -/
def username_to_bytes (username : List Char) : List Nat :=
  u16be 0x0006 ++ u16be (utf8Encode username).length ++ utf8Encode username

/-- `xor_mapped_address_to_bytes`: type 0x0020, length 8, the 0x0001
family word, the XORed port and the XORed IPv4 address. -/
def xor_mapped_address_to_bytes (address : Nat) (port : Nat) : List Nat :=
  let x_address := Nat.xor address MAGIC_COOKIE
  let x_port := Nat.xor port (MAGIC_COOKIE / 65536)
  u16be 0x0020 ++ u16be 8 ++ (u16be 1 ++ u16be x_port ++ u32be x_address)

/-- `Attribute::to_bytes`.  The source's match has
`_ => unimplemented!()` for `ComprehensionOptional` and `Priority`; no
claim below serializes either variant, and those branches are marked by
an empty result here. -/
def Attribute.to_bytes : Attribute → List Nat
  | .fingerprint checksum => fingerprint_to_bytes checksum
  | .messageIntegrity code => message_integrity_to_bytes code
  | .username u => username_to_bytes u
  | .xorMappedAddress address port => xor_mapped_address_to_bytes address port
  | .comprehensionOptional _ => []
  | .priority _ => []

/-- `comprehension_optional`: keep the raw value. -/
def comprehension_optionalP : BP Attribute := fun input =>
  .ok (.comprehensionOptional input) []

/-- `fingerprint`: `split_at(4)` panics when fewer than four value bytes
were declared. -/
def fingerprintP : BP Attribute := fun input =>
  if 4 ≤ input.length then
    .ok (.fingerprint (u32OfBytes (input.take 4))) (input.drop 4)
  else .panic

/-- `message_integrity`: `split_at(20)` panics when the value is short. -/
def message_integrityP : BP Attribute := fun input =>
  if 20 ≤ input.length then
    .ok (.messageIntegrity (input.take 20)) (input.drop 20)
  else .panic

/-- `priority`: `split_at(4)` panics when the value is short. -/
def priorityP : BP Attribute := fun input =>
  if 4 ≤ input.length then
    .ok (.priority (u32OfBytes (input.take 4))) (input.drop 4)
  else .panic

/-- `username`: `String::from_utf8(..).unwrap()` panics on invalid
UTF-8. -/
def usernameP : BP Attribute := fun input =>
  match utf8Decode input with
  | some s => .ok (.username s) []
  | none => .panic

/-- `xor_mapped_address`: family 0x01 is IPv4; family 0x02 and every
other family value hit `unimplemented!()`; a short address panics in
`split_at(4)`. -/
def xor_mapped_addressP : BP Attribute :=
  bbind be_u16 fun family_raw =>
  bbind be_u16 fun x_port_field => fun x_address_field =>
    let port := Nat.xor x_port_field (MAGIC_COOKIE / 65536)
    let family := family_raw % 256
    if family = 1 then
      if 4 ≤ x_address_field.length then
        .ok (.xorMappedAddress
          (Nat.xor (u32OfBytes (x_address_field.take 4)) MAGIC_COOKIE) port)
          (x_address_field.drop 4)
      else .panic
    else .panic

/-- `attribute`: type and length-prefixed value, padding skipped from the
remainder (a short remainder panics in the slice index), then dispatch on
the type code; unknown comprehension-required types hit
`unimplemented!()`. -/
def attributeP : BP Attribute :=
  bbind be_u16 fun typ =>
  bbind length_data_u16 fun value_field => fun remainder =>
    let pad_len := (4 - value_field.length % 4) % 4
    if remainder.length < pad_len then .panic
    else
      let remainder' := remainder.drop pad_len
      let parser : Option (BP Attribute) :=
        if typ = 0x0006 then some usernameP
        else if typ = 0x0008 then some message_integrityP
        else if typ = 0x0020 then some xor_mapped_addressP
        else if typ = 0x0024 then some priorityP
        else if 0x8000 ≤ typ ∧ typ ≤ 0x8027 then some comprehension_optionalP
        else if typ = 0x8028 then some fingerprintP
        else if 0x8029 ≤ typ ∧ typ ≤ 0xFFFF then some comprehension_optionalP
        else none
      match parser with
      | none => .panic
      | some p =>
        match ball_consuming p value_field with
        | .ok a _ => .ok a remainder'
        | .err => .err
        | .panic => .panic

/-- STUN message: header plus attributes. -/
structure Message where
  header : Header
  attributes : List Attribute
deriving DecidableEq, Repr

/-- `message`: the header followed by `many0` over the attribute parser.
The declared header length plays no part. -/
def message : BP Message :=
  bbind headerP fun h => bmap (bmany0 attributeP) fun attrs => ⟨h, attrs⟩

/-- `Message::to_bytes`. -/
def Message.to_bytes (m : Message) : List Nat :=
  m.header.to_bytes ++ (m.attributes.map Attribute.to_bytes).flatten

/-- `Message::base`. -/
def Message.base (header : Header) : Message := ⟨header, []⟩

/-- `Message::with_attributes`: the loop adds the byte lengths of the
attributes already present (`&self.attributes`) to the header length —
not those of the new vector — and then replaces the vector.  Header
length arithmetic wraps as `u16`. -/
def Message.with_attributes (m : Message) (attributes : List Attribute) :
    Message :=
  ⟨{ m.header with
      length := m.attributes.foldl
        (fun l a => (l + a.to_bytes.length) % 65536) m.header.length },
    attributes⟩

/-- `Message::and_attribute`. -/
def Message.and_attribute (m : Message) (a : Attribute) : Message :=
  ⟨{ m.header with length := (m.header.length + a.to_bytes.length) % 65536 },
    m.attributes ++ [a]⟩

/-- `Message::with_message_integrity`, with the HMAC-SHA1 primitive of
the external crypto crate passed as a function of key and data. -/
def Message.with_message_integrity (m : Message)
    (hmacSha1 : List Nat → List Nat → List Nat) (key : List Nat) : Message :=
  let h := { m.header with length := (m.header.length + 24) % 65536 }
  let code := hmacSha1 key (Message.to_bytes ⟨h, m.attributes⟩)
  ⟨h, m.attributes ++ [.messageIntegrity code]⟩

/-- `Message::with_fingerprint`, with the CRC-32-IEEE primitive of the
external crc crate passed as a function.  The source adds 36 to the
header length — its comment reads `32 for the CRC and 4 for the attribute
header`, counting the 32 CRC bits as bytes. -/
def Message.with_fingerprint (m : Message) (crc32 : List Nat → Nat) : Message :=
  let h := { m.header with length := (m.header.length + 36) % 65536 }
  let checksum := crc32 (Message.to_bytes ⟨h, m.attributes⟩)
  ⟨h, m.attributes ++ [.fingerprint (Nat.xor checksum FINGERPRINT_COOKIE)]⟩

end Stun

namespace NomB

theorem bbind_ok {p : BP α} {f : α → BP β} {input : List Nat} {a : α}
    {r : List Nat} (h : p input = .ok a r) : bbind p f input = f a r := by
  simp [bbind, h]

theorem bbind_err {p : BP α} {f : α → BP β} {input : List Nat}
    (h : p input = .err) : bbind p f input = .err := by
  simp [bbind, h]

theorem bmap_ok {p : BP α} {f : α → β} {input : List Nat} {a : α}
    {r : List Nat} (h : p input = .ok a r) : bmap p f input = .ok (f a) r := by
  simp [bmap, h]

theorem btake_append {xs : List Nat} {n : Nat} (r : List Nat)
    (h : xs.length = n) : btake n (xs ++ r) = .ok xs r := by
  subst h
  unfold btake
  rw [if_pos (by simp)]
  rw [List.take_left, List.drop_left]

theorem btag_append (t r : List Nat) : btag t (t ++ r) = .ok t r := by
  have hpre : t.isPrefixOf (t ++ r) = true :=
    List.isPrefixOf_iff_prefix.mpr (List.prefix_append t r)
  simp [btag, hpre, List.drop_left]

theorem be_u16_cons (b0 b1 : Nat) (r : List Nat) :
    be_u16 (b0 :: b1 :: r) = .ok (b0 * 256 + b1) r := rfl

theorem bmany0F_fuel_irrel {p : BP α} :
    ∀ f1 f2 input, input.length < f1 → input.length < f2 →
      bmany0F p f1 input = bmany0F p f2 input := by
  intro f1
  induction f1 with
  | zero => intro f2 input h1; omega
  | succ f1 ih =>
    intro f2 input h1 h2
    cases f2 with
    | zero => omega
    | succ f2 =>
      simp only [bmany0F]
      cases hp : p input with
      | err => rfl
      | panic => rfl
      | ok a rest =>
        by_cases hlt : rest.length < input.length
        · simp only [hlt, if_true]
          rw [ih f2 rest (by omega) (by omega)]
        · simp [hlt]

theorem bmany0_of_err {p : BP α} {input : List Nat}
    (h : p input = .err) : bmany0 p input = .ok [] input := by
  simp [bmany0, bmany0F, h]

theorem bmany0_step {p : BP α} {input : List Nat} {a : α} {rest : List Nat}
    (h : p input = .ok a rest) (hlt : rest.length < input.length) :
    bmany0 p input =
      match bmany0 p rest with
      | .ok as rem => .ok (a :: as) rem
      | .err => .err
      | .panic => .panic := by
  unfold bmany0
  conv_lhs => rw [show input.length + 1 = input.length + 1 from rfl]
  simp only [bmany0F, h, hlt, if_true]
  rw [bmany0F_fuel_irrel input.length (rest.length + 1) rest (by omega) (by omega)]
  rfl

theorem bmany0_units {p : BP α} (units : List (List Nat × α)) (rest : List Nat)
    (hunits : ∀ u ∈ units, u.1 ≠ [] ∧ ∀ r, p (u.1 ++ r) = .ok u.2 r)
    (hrest : p rest = .err) :
    bmany0 p ((units.map Prod.fst).flatten ++ rest) =
      .ok (units.map Prod.snd) rest := by
  induction units with
  | nil => simpa using bmany0_of_err hrest
  | cons u us ih =>
    simp only [List.map_cons, List.flatten_cons, List.append_assoc]
    obtain ⟨hne, hu⟩ := hunits u (by simp)
    have hx := hu ((us.map Prod.fst).flatten ++ rest)
    have hlt : ((us.map Prod.fst).flatten ++ rest).length <
        (u.1 ++ ((us.map Prod.fst).flatten ++ rest)).length := by
      cases hpu : u.1 with
      | nil => exact absurd hpu hne
      | cons c t => simp [hpu]; omega
    rw [bmany0_step hx hlt, ih (fun v hv => hunits v (by simp [hv])) ]

end NomB

namespace Stun

open NomB

theorem u16be_length (n : Nat) : (u16be n).length = 2 := rfl

theorem u32be_length (n : Nat) : (u32be n).length = 4 := rfl

theorem be_u16_u16be (n : Nat) (r : List Nat) (h : n < 65536) :
    be_u16 (u16be n ++ r) = .ok n r := by
  show be_u16 (n / 256 % 256 :: n % 256 :: r) = .ok n r
  rw [be_u16_cons]
  congr 1
  omega

/-- Parsing the serialization of a header (class × binding, length below
2^16, 12-byte transaction id) recovers the header and leaves the rest
untouched. -/
theorem headerP_to_bytes (h : Header) (r : List Nat)
    (hlen : h.length < 65536) (htid : h.transaction_id.length = 12) :
    headerP (Header.to_bytes h ++ r) = .ok h r := by
  obtain ⟨cls, method, len, tid⟩ := h
  cases method
  have key : ∀ b0 b1 : Nat, message_type [b0, b1] = .ok (cls, .binding) [] →
      headerP (([b0, b1] ++ u16be len ++ u32be MAGIC_COOKIE ++ tid) ++ r) =
        .ok ⟨cls, .binding, len, tid⟩ r := by
    intro b0 b1 hmsg
    have hmt : map_parserB (btake 2) message_type
        ([b0, b1] ++ (u16be len ++ (u32be MAGIC_COOKIE ++ (tid ++ r)))) =
        .ok (cls, .binding) (u16be len ++ (u32be MAGIC_COOKIE ++ (tid ++ r))) := by
      unfold map_parserB
      rw [bbind_ok (@btake_append [b0, b1] 2 _ rfl)]
      simp [hmsg]
    have hterm : bterminated be_u16 (btag (u32be MAGIC_COOKIE))
        (u16be len ++ (u32be MAGIC_COOKIE ++ (tid ++ r))) =
        .ok len (tid ++ r) := by
      unfold bterminated
      rw [bbind_ok (be_u16_u16be len _ hlen)]
      rw [bmap_ok (btag_append (u32be MAGIC_COOKIE) (tid ++ r))]
    simp only [List.append_assoc]
    unfold headerP
    rw [bbind_ok hmt, bbind_ok hterm, bmap_ok (btake_append r htid)]
  cases cls
  · rw [show Header.to_bytes ⟨Class.error, .binding, len, tid⟩ =
      [1, 17] ++ u16be len ++ u32be MAGIC_COOKIE ++ tid from by
      simp [Header.to_bytes, u16be]]
    exact key 1 17 rfl
  · rw [show Header.to_bytes ⟨Class.indication, .binding, len, tid⟩ =
      [0, 17] ++ u16be len ++ u32be MAGIC_COOKIE ++ tid from by
      simp [Header.to_bytes, u16be]]
    exact key 0 17 rfl
  · rw [show Header.to_bytes ⟨Class.request, .binding, len, tid⟩ =
      [0, 1] ++ u16be len ++ u32be MAGIC_COOKIE ++ tid from by
      simp [Header.to_bytes, u16be]]
    exact key 0 1 rfl
  · rw [show Header.to_bytes ⟨Class.success, .binding, len, tid⟩ =
      [1, 1] ++ u16be len ++ u32be MAGIC_COOKIE ++ tid from by
      simp [Header.to_bytes, u16be]]
    exact key 1 1 rfl

end Stun

namespace Stun

open NomB

/-- A fixed twelve-byte transaction id used in concrete instances. -/
def tidC : List Nat := [0, 1, 2, 3, 4, 5, 6, 7, 8, 9, 10, 11]

/-- The wire bytes of a FINGERPRINT attribute carrying 0xDEADBEEF. -/
def fpUnitBytes : List Nat := [0x80, 0x28, 0x00, 0x04, 0xDE, 0xAD, 0xBE, 0xEF]

/-- The attribute parser consumes exactly one serialized FINGERPRINT
attribute, whatever follows it. -/
theorem attributeP_fp_unit (r : List Nat) :
    attributeP (fpUnitBytes ++ r) = .ok (.fingerprint 0xDEADBEEF) r := by
  have hld : length_data_u16 (0x00 :: 0x04 :: ([0xDE, 0xAD, 0xBE, 0xEF] ++ r)) =
      .ok [0xDE, 0xAD, 0xBE, 0xEF] r := by
    unfold length_data_u16
    rw [bbind_ok (be_u16_cons 0x00 0x04 _)]
    exact @btake_append [0xDE, 0xAD, 0xBE, 0xEF] (0x00 * 256 + 0x04) r (by decide)
  show attributeP (0x80 :: 0x28 :: 0x00 :: 0x04 :: ([0xDE, 0xAD, 0xBE, 0xEF] ++ r)) = _
  unfold attributeP
  rw [bbind_ok (be_u16_cons 0x80 0x28 _), bbind_ok hld]
  simp [ball_consuming, fingerprintP, u32OfBytes]

end Stun

namespace StunAttr

open Stun (MAGIC_COOKIE u16be u32be)
open Utf8

/-- The modular attribute sum (src/stun/src/attribute): each variant holds
what its Rust struct holds.  `XorMappedAddress` is kept in its IPv4 form,
the only one the source implements (the v4 `match` arm; v6 hits
`unimplemented!()`).  `MessageIntegrity` wraps a 20-byte buffer, modelled
as the byte list (`TryFrom` only builds it from exactly 20 bytes).
`ErrorCode` keeps the numeric code as its `u32` value. -/
inductive MAttr where
  | comprehensionOptional : Nat → List Nat → MAttr
  | errorCode : Nat → List Char → MAttr
  | fingerprint : Nat → MAttr
  | messageIntegrity : List Nat → MAttr
  | priority : Nat → MAttr
  | username : List Char → MAttr
  | xorMappedAddress : Nat → Nat → MAttr
  | useCandidate : MAttr
deriving DecidableEq, Repr

/-- The `Tlv::typ` implementations. -/
def MAttr.typ : MAttr → Nat
  | .comprehensionOptional t _ => t
  | .errorCode _ _ => 0x0009
  | .fingerprint _ => 0x8028
  | .messageIntegrity _ => 0x0008
  | .priority _ => 0x0024
  | .username _ => 0x0006
  | .xorMappedAddress _ _ => 0x0020
  | .useCandidate => 0x0025

/-- The `Tlv::value` implementations.  Username and ErrorCode pad their
value to a four-byte boundary; ComprehensionOptional returns the raw
stored bytes with no padding; the others are intrinsically sized. -/
def MAttr.value : MAttr → List Nat
  | .comprehensionOptional _ v => v
  | .errorCode code phrase =>
      let vf := u32be (code / 100 * 256 + code % 100) ++ utf8Encode phrase
      vf ++ List.replicate ((4 - vf.length % 4) % 4) 0
  | .fingerprint v => u32be (Nat.xor v 0x5354554E)
  | .messageIntegrity buf => buf
  | .priority v => u32be v
  | .username s =>
      let vf := utf8Encode s
      vf ++ List.replicate ((4 - vf.length % 4) % 4) 0
  | .xorMappedAddress address port =>
      u16be 1 ++ u16be (Nat.xor port (MAGIC_COOKIE / 65536)) ++
        u32be (Nat.xor address MAGIC_COOKIE)
  | .useCandidate => []

/-- The `Tlv::length` implementations: the unpadded value length, except
that `MessageIntegrity` answers the constant 20 and `ErrorCode` answers
4 plus the phrase's byte length; `XorMappedAddress` measures its own
value. -/
def MAttr.length : MAttr → Nat
  | .comprehensionOptional _ v => v.length
  | .errorCode _ phrase => 4 + (utf8Encode phrase).length
  | .fingerprint _ => 4
  | .messageIntegrity _ => 20
  | .priority _ => 4
  | .username s => (utf8Encode s).length
  | .xorMappedAddress a p => (MAttr.xorMappedAddress a p).value.length
  | .useCandidate => 0

/-- The `Tlv::to_bytes` default method: type field, length field, value
field. -/
def MAttr.to_bytes (a : MAttr) : List Nat :=
  u16be a.typ ++ u16be a.length ++ a.value

/-- The spec's "rounded up to the next multiple of 4". -/
def roundUpTo4 (n : Nat) : Nat := n + (4 - n % 4) % 4

end StunAttr

namespace Ice

open NomC Numeral

/-- `ICE_CHARS`: the characters a foundation may use. -/
def ICE_CHARS : List Char :=
  ['a', 'b', 'c', 'd', 'e', 'f', 'g', 'h', 'i', 'j', 'k', 'l', 'm', 'n', 'o',
   'p', 'q', 'r', 's', 't', 'u', 'v', 'w', 'x', 'y', 'z', 'A', 'B', 'C', 'D',
   'E', 'F', 'G', 'H', 'I', 'J', 'K', 'L', 'M', 'N', 'O', 'P', 'Q', 'R', 'S',
   'T', 'U', 'V', 'W', 'X', 'Y', 'Z', '1', '2', '3', '4', '5', '6', '7', '8',
   '9', '0', '+', '/']

/-- The ice crate's error type; `invalidCandidate` stands for
`InvalidCandidate(text)` (the nom error text is not kept), the other two
carry the offending token. -/
inductive IceError where
  | invalidCandidate : IceError
  | unsupportedCandidateType : List Char → IceError
  | unsupportedTransport : List Char → IceError
deriving DecidableEq, Repr

/-- `foundation`: one to thirty-two ice characters, then a space. -/
def foundation : P (List Char) :=
  pmap (terminated (many_m_n 1 32 (one_of ICE_CHARS)) (charP ' ')) id

/-- Rust `str::parse::<u16>` on a digit string. -/
def parseU16 (ds : List Char) : Option Nat :=
  if digitsVal ds < 65536 then some (digitsVal ds) else none

/-- Rust `str::parse::<u32>` on a digit string. -/
def parseU32 (ds : List Char) : Option Nat :=
  if digitsVal ds < 4294967296 then some (digitsVal ds) else none

/-- `component_id`: digits then a space, parsed as a `u16`. -/
def component_id : P Nat :=
  map_res (terminated (recognize (many_m_n 1 5 digit1)) (charP ' ')) parseU16

/-- nom `alphanumeric1` over `char`: one or more ASCII alphanumerics. -/
def alphanumeric1 : P (List Char) := fun input =>
  match input.takeWhile Char.isAlphanum with
  | [] => none
  | pre => some (pre, input.dropWhile Char.isAlphanum)

/-- The symbol set of RFC 3261 `token`, backquote and apostrophe
included. -/
def tokenSymbols : List Char :=
  ['-', '.', '!', '%', '*', '_', '+', Char.ofNat 96, Char.ofNat 39, '~']

/-- `token` (RFC 3261): alphanumeric runs and symbol runs. -/
def token : P (List Char) :=
  recognize (many1 (alt alphanumeric1 (recognize (many1 (one_of tokenSymbols)))))

/-- `Transport`. -/
inductive Transport where
  | udp : Transport
  | tcp : Transport
deriving DecidableEq, Repr

/-- `impl FromStr for Transport`: the source matches the exact tokens
`udp`, `UDP`, `tcp`, `TCP` and throws `UnsupportedTransport` with the
token otherwise. -/
def Transport.from_str (tok : List Char) : Except IceError Transport :=
  if tok = ['u', 'd', 'p'] ∨ tok = ['U', 'D', 'P'] then .ok .udp
  else if tok = ['t', 'c', 'p'] ∨ tok = ['T', 'C', 'P'] then .ok .tcp
  else .error (.unsupportedTransport tok)

/-- `transport`: a token then a space, converted by `FromStr`. -/
def transport : P Transport :=
  map_res (terminated token (charP ' ')) fun tok => (Transport.from_str tok).toOption

/-- `priority`: digits then a space, parsed as a `u32`. -/
def priorityP : P Nat :=
  map_res (terminated (recognize (many_m_n 1 10 digit1)) (charP ' ')) parseU32

/-- Split a character list at the dots. -/
def splitDot : List Char → List (List Char)
  | [] => [[]]
  | c :: rest =>
    let r := splitDot rest
    if c = '.' then [] :: r else (c :: r.headI) :: r.tail

/-- One octet of `Ipv4Addr::from_str`: digits only, no leading zero,
value at most 255. -/
def parseOctet (s : List Char) : Option Nat :=
  match s with
  | [] => none
  | c :: rest =>
    if c = '0' ∧ rest ≠ [] then none
    else if (c :: rest).all Char.isDigit then
      if digitsVal (c :: rest) ≤ 255 then some (digitsVal (c :: rest)) else none
    else none

/-- Rust `IpAddr::from_str` restricted to the dotted-quad v4 form, as a
32-bit value. -/
def ipv4FromStr (s : List Char) : Option Nat :=
  match splitDot s with
  | [a, b, c, d] =>
    match parseOctet a, parseOctet b, parseOctet c, parseOctet d with
    | some x, some y, some z, some w =>
        some (x * 16777216 + y * 65536 + z * 256 + w)
    | _, _, _, _ => none
  | _ => none

/-- `ipv4_address`: the recognized `d+.d+.d+.d+` slice converted by
`IpAddr::from_str`. -/
def ipv4_address : P Nat :=
  map_res
    (recognize (pair (countP (terminated digit1 (charP '.')) 3) digit1))
    ipv4FromStr

/-- `port`: digits parsed as a `u16`. -/
def port : P Nat :=
  map_res (recognize (many_m_n 1 5 digit1)) parseU16

/-- `SocketAddr`, v4 address and port. -/
structure SockAddr where
  ip : Nat
  port : Nat
deriving DecidableEq, Repr

/-- `connection_address_and_port`. -/
def connection_address_and_port : P SockAddr :=
  pmap (pair (terminated ipv4_address (charP ' ')) (terminated port (charP ' ')))
    fun p => ⟨p.1, p.2⟩

/-- `CandidateType`. -/
inductive CandidateType where
  | host : CandidateType
  | serverReflexive : CandidateType
  | relayed : CandidateType
  | peerReflexive : CandidateType
deriving DecidableEq, Repr

/-- `impl FromStr for CandidateType`. -/
def CandidateType.from_str (tok : List Char) : Except IceError CandidateType :=
  if tok = ['h', 'o', 's', 't'] then .ok .host
  else if tok = ['s', 'r', 'f', 'l', 'x'] then .ok .serverReflexive
  else if tok = ['r', 'e', 'l', 'a', 'y'] then .ok .relayed
  else if tok = ['p', 'r', 'f', 'l', 'x'] then .ok .peerReflexive
  else .error (.unsupportedCandidateType tok)

/-- `candidate_type`: `typ ` then a token converted by `FromStr`. -/
def candidate_type : P CandidateType :=
  map_res (preceded (tag ['t', 'y', 'p', ' ']) token)
    fun tok => (CandidateType.from_str tok).toOption

/-- `related_address_and_port`: ` raddr <ip> rport <port>`. -/
def related_address_and_port : P SockAddr :=
  pmap
    (pair (preceded (tag [' ', 'r', 'a', 'd', 'd', 'r', ' ']) ipv4_address)
      (preceded (tag [' ', 'r', 'p', 'o', 'r', 't', ' ']) port))
    fun p => ⟨p.1, p.2⟩

/-- `extension_attribute`: a space-led name and a space-led value, each a
run of characters other than space, CR and LF. -/
def extension_attribute : P (List Char × List Char) :=
  pair (preceded (charP ' ') (many1 (none_of [' ', '\r', '\n'])))
    (preceded (charP ' ') (many1 (none_of [' ', '\r', '\n'])))

/-- `RemoteCandidate`: of the parsed tuple only the connection address
and the candidate type are kept. -/
structure RemoteCandidate where
  address : SockAddr
  ty : CandidateType
deriving DecidableEq, Repr

/-- `candidate`: the RFC 5245 candidate-attribute body,
`RemoteCandidate::from_tuple` applied to the tuple. -/
def candidate : P RemoteCandidate :=
  pbind foundation fun _ =>
  pbind component_id fun _ =>
  pbind transport fun _ =>
  pbind priorityP fun _ =>
  pbind connection_address_and_port fun addr =>
  pbind candidate_type fun ty =>
  pbind (opt related_address_and_port) fun _ =>
  pmap (many0 extension_attribute) fun _ => ⟨addr, ty⟩

/-- `candidate_attribute`: `a=candidate:<candidate>` and CRLF. -/
def candidate_attribute : P RemoteCandidate :=
  delimited (tag ['a', '=', 'c', 'a', 'n', 'd', 'i', 'd', 'a', 't', 'e', ':'])
    candidate (tag ['\r', '\n'])

/-- `impl TryFrom<sdp::Attribute> for RemoteCandidate`: print the
attribute with its Display, run the all-consuming candidate-attribute
parser, and turn a parse failure into `InvalidCandidate`. -/
def RemoteCandidate.tryFrom (attr : Sdp.Attribute) : Except IceError RemoteCandidate :=
  match all_consuming candidate_attribute (Sdp.Attribute.print attr) with
  | some (c, _) => .ok c
  | none => .error .invalidCandidate

/-- `LocalCandidate`. -/
structure LocalCandidate where
  address : SockAddr
  ty : CandidateType
deriving DecidableEq, Repr

/-- `Agent`: credentials, local interface addresses (v4 values), and the
two candidate lists. -/
structure Agent where
  username : List Char
  password : List Char
  local_addrs : List Nat
  local_candidates : List LocalCandidate
  remote_candidates : List RemoteCandidate
deriving DecidableEq, Repr

/-- `Agent::add_remote_candidate`: convert the attribute, propagate its
error, and otherwise push the candidate.  The mutation of `&mut self` is
returned as the new agent value. -/
def Agent.add_remote_candidate (a : Agent) (attr : Sdp.Attribute) :
    Except IceError Agent :=
  match RemoteCandidate.tryFrom attr with
  | .ok c => .ok { a with remote_candidates := a.remote_candidates ++ [c] }
  | .error e => .error e

/-- The first USERNAME attribute of a message, as the responder's
for-loop finds it. -/
def firstUsername : List Stun.Attribute → Option (List Char)
  | [] => none
  | .username u :: _ => some u
  | _ :: rest => firstUsername rest

/-- The per-datagram decision of `udp_listener`'s loop body on a parsed
message: skip when `method != Binding && class != Request` (the source's
conjunction), then skip when no USERNAME attribute is present, otherwise
send a reply. -/
def sendsReply (m : Stun.Message) : Bool :=
  if m.header.method ≠ Stun.Method.binding ∧ m.header.cls ≠ Stun.Class.request
  then false
  else (firstUsername m.attributes).isSome

end Ice

namespace Stun

/-- A header whose message-type word carries method value 2, which
`message_type` does not recognize. -/
def badMethodBytes : List Nat := [0, 2, 0, 0] ++ u32be MAGIC_COOKIE ++ tidC

/-- A FINGERPRINT attribute declaring only two value bytes. -/
def shortFingerprintBytes : List Nat :=
  [0x80, 0x28, 0x00, 0x02, 0xAB, 0xCD, 0x00, 0x00]

/-- A USERNAME attribute whose value byte 0xFF is not UTF-8. -/
def badUtf8UsernameBytes : List Nat :=
  [0x00, 0x06, 0x00, 0x01, 0xFF, 0x00, 0x00, 0x00]

/-- An attribute of the unimplemented comprehension-required type
0x0001 (MAPPED-ADDRESS). -/
def unknownRequiredBytes : List Nat := [0x00, 0x01, 0x00, 0x00]

end Stun

namespace StunAttr

/-- Within each variant's case, `to_bytes` opens as type bytes, length
bytes, value bytes; the slice at offset 2 is the length field. -/
theorem to_bytes_parts (a : MAttr) :
    a.to_bytes.length = 4 + a.value.length ∧
    (a.to_bytes.drop 2).take 2 = Stun.u16be a.length := by
  cases a <;>
    refine ⟨by simp [MAttr.to_bytes, Stun.u16be]; omega, ?_⟩ <;> rfl

end StunAttr

/-- C1: parsing the Display output returns the value unchanged — amended:
this round-trip holds for every value built from the constructors whose
fields satisfy the grammar's constraints (`SessionDescription.Valid`), in
particular every time-zone adjustment offset divisible by 3600; an offset
that is not a multiple of 3600 is printed in whole hours and does not
survive the trip. -/
theorem C1_sdp_round_trip (x : Sdp.SessionDescription) (hx : x.Valid) :
    Sdp.from_str (Sdp.SessionDescription.print x) = some x :=
  Sdp.from_str_print x hx

/-- C1 witness: a session description exercising every section —
information, uri, emails, phones, connection, bandwidths, repeat times,
time zones, encryption key, attributes, media descriptions — round-trips
through Display and the parser. -/
theorem C1_sdp_round_trip_witness :
    Sdp.SessionDescription.Valid Sdp.witSd2 ∧
      Sdp.from_str (Sdp.SessionDescription.print Sdp.witSd2) = some Sdp.witSd2 :=
  ⟨by decide, C1_sdp_round_trip Sdp.witSd2 (by decide)⟩

/-- C1 counterexample: the constructors accept a time-zone adjustment
offset of 60 seconds, Display prints it as `0h`, and reparsing the
printed form does not return the original value. -/
theorem C1_offset_sixty_no_round_trip :
    Sdp.from_str (Sdp.SessionDescription.print Sdp.cexSd) ≠ some Sdp.cexSd := by
  decide

/-- C2: how the message parser treats the attribute section — amended:
the declared header length plays no part; after the twenty-byte header
the parser consumes serialized attributes greedily for as long as the
attribute parser succeeds, whatever the header's length field says, and
the remainder is whatever makes the attribute parser fail. -/
theorem C2_message_parses_attributes_greedily (h : Stun.Header)
    (units : List (List Nat × Stun.Attribute)) (rest : List Nat)
    (hlen : h.length < 65536) (htid : h.transaction_id.length = 12)
    (hunits : ∀ u ∈ units, u.1 ≠ [] ∧
      ∀ r, Stun.attributeP (u.1 ++ r) = .ok u.2 r)
    (hrest : Stun.attributeP rest = .err) :
    Stun.message (Stun.Header.to_bytes h ++
        ((units.map Prod.fst).flatten ++ rest)) =
      .ok ⟨h, units.map Prod.snd⟩ rest := by
  unfold Stun.message
  rw [NomB.bbind_ok (Stun.headerP_to_bytes h _ hlen htid)]
  rw [NomB.bmap_ok (NomB.bmany0_units units rest hunits hrest)]

/-- C2 witness: a header declaring attribute length 5 followed by one
eight-byte FINGERPRINT attribute and a stray byte: the parser consumes
the whole attribute (not 5 bytes) and leaves the stray byte. -/
theorem C2_message_parses_attributes_greedily_witness :
    Stun.message (Stun.Header.to_bytes ⟨.request, .binding, 5, Stun.tidC⟩ ++
        ((([(Stun.fpUnitBytes, Stun.Attribute.fingerprint 0xDEADBEEF)].map
            Prod.fst).flatten) ++ [0x42])) =
      .ok ⟨⟨.request, .binding, 5, Stun.tidC⟩,
        [.fingerprint 0xDEADBEEF]⟩ [0x42] :=
  C2_message_parses_attributes_greedily ⟨.request, .binding, 5, Stun.tidC⟩
    [(Stun.fpUnitBytes, Stun.Attribute.fingerprint 0xDEADBEEF)] [0x42]
    (by decide) (by decide)
    (by
      intro u hu
      simp only [List.mem_singleton] at hu
      subst hu
      exact ⟨by decide, Stun.attributeP_fp_unit⟩)
    (by decide)

/-- C2 counterexample: a header declaring attribute-section length 0
followed by eight attribute bytes.  The claim requires the parser to
stop after 0 bytes and return the eight bytes as remainder; instead it
parses them as a FINGERPRINT attribute and returns an empty remainder. -/
theorem C2_declared_length_ignored :
    Stun.message (Stun.Header.to_bytes ⟨.request, .binding, 0, Stun.tidC⟩ ++
        Stun.fpUnitBytes) =
      .ok ⟨⟨.request, .binding, 0, Stun.tidC⟩, [.fingerprint 0xDEADBEEF]⟩ [] ∧
    Stun.message (Stun.Header.to_bytes ⟨.request, .binding, 0, Stun.tidC⟩ ++
        Stun.fpUnitBytes) ≠
      .ok ⟨⟨.request, .binding, 0, Stun.tidC⟩, []⟩ Stun.fpUnitBytes := by
  decide

/-- C3: `with_fingerprint` on a fresh message raises the header length to
36, not by the 8 bytes the FINGERPRINT TLV actually occupies on the wire
(the second conjunct): the source adds 36, counting the CRC's 32 bits as
bytes. -/
theorem C3_with_fingerprint_adds_36_not_8 :
    ∀ crc32 : List Nat → Nat,
      ((Stun.Message.base ⟨.request, .binding, 0, Stun.tidC⟩).with_fingerprint
          crc32).header.length = 36 ∧
      ∀ v, (Stun.Attribute.fingerprint v).to_bytes.length = 8 := by
  intro crc32
  refine ⟨rfl, fun v => ?_⟩
  simp [Stun.Attribute.to_bytes, Stun.fingerprint_to_bytes, Stun.u16be,
    Stun.u32be]

/-- C4: `with_attributes` recomputes the header length from the
attributes already present before the list is replaced — on a fresh
message it leaves length 0 even though the new USERNAME TLV serializes
to 9 bytes — so the knuth scenario ends at header length 24, not the 36
the claim states. -/
theorem C4_with_attributes_uses_stale_list :
    ∀ (hmacSha1 : List Nat → List Nat → List Nat) (key : List Nat),
      ((Stun.Message.base ⟨.request, .binding, 0, Stun.tidC⟩).with_attributes
          [.username ['k', 'n', 'u', 't', 'h']]).header.length = 0 ∧
      (((Stun.Message.base ⟨.request, .binding, 0, Stun.tidC⟩).with_attributes
          [.username ['k', 'n', 'u', 't', 'h']]).with_message_integrity
          hmacSha1 key).header.length = 24 ∧
      (Stun.Attribute.username ['k', 'n', 'u', 't', 'h']).to_bytes.length = 9 := by
  intro hmacSha1 key
  exact ⟨rfl, rfl, by decide⟩

/-- C5: on a header of length 0, `with_message_integrity` sets the
length to 24 and appends one MESSAGE-INTEGRITY attribute whose code is
the HMAC-SHA1, under the given key, of the serialization of the message
with the length already 24 and the attribute not yet present (with no
other attributes, that serialization is the header's twenty bytes). -/
theorem C5_with_message_integrity_base (cls : Stun.Class)
    (method : Stun.Method) (tid : List Nat)
    (hmacSha1 : List Nat → List Nat → List Nat) (key : List Nat) :
    (Stun.Message.base ⟨cls, method, 0, tid⟩).with_message_integrity
        hmacSha1 key =
      ⟨⟨cls, method, 24, tid⟩,
       [.messageIntegrity
          (hmacSha1 key (Stun.Header.to_bytes ⟨cls, method, 24, tid⟩))]⟩ := by
  simp [Stun.Message.base, Stun.Message.with_message_integrity,
    Stun.Message.to_bytes]

/-- C6: the TLV length law — amended: for every attribute other than
`ComprehensionOptional` the serialization is 4 bytes of type and length
fields plus the value length rounded up to a four-byte multiple, and the
length field stores the unrounded `length()`; `ComprehensionOptional`
alone does not pad, its serialization being exactly 4 plus the raw value
length.  (MessageIntegrity values are the 20-byte HMAC buffers its
`TryFrom` admits.) -/
theorem C6_tlv_length_law (a : StunAttr.MAttr)
    (hmi : ∀ buf, a = .messageIntegrity buf → buf.length = 20) :
    ((∀ t v, a ≠ .comprehensionOptional t v) →
        a.to_bytes.length = 4 + StunAttr.roundUpTo4 a.length) ∧
    (∀ t v, a = .comprehensionOptional t v →
        a.to_bytes.length = 4 + a.length) ∧
    (a.to_bytes.drop 2).take 2 = Stun.u16be a.length := by
  refine ⟨?_, ?_, (StunAttr.to_bytes_parts a).2⟩
  · intro hne
    rw [(StunAttr.to_bytes_parts a).1]
    cases a with
    | comprehensionOptional t v => exact absurd rfl (hne t v)
    | errorCode code phrase =>
        simp [StunAttr.MAttr.value, StunAttr.MAttr.length,
          StunAttr.roundUpTo4, Stun.u32be]
        omega
    | fingerprint v =>
        simp [StunAttr.MAttr.value, StunAttr.MAttr.length,
          StunAttr.roundUpTo4, Stun.u32be]
    | messageIntegrity buf =>
        have h20 := hmi buf rfl
        simp [StunAttr.MAttr.value, StunAttr.MAttr.length,
          StunAttr.roundUpTo4, h20]
    | priority v =>
        simp [StunAttr.MAttr.value, StunAttr.MAttr.length,
          StunAttr.roundUpTo4, Stun.u32be]
    | username s =>
        simp [StunAttr.MAttr.value, StunAttr.MAttr.length,
          StunAttr.roundUpTo4]
    | xorMappedAddress address port =>
        simp [StunAttr.MAttr.value, StunAttr.MAttr.length,
          StunAttr.roundUpTo4, Stun.u32be, Stun.u16be]
    | useCandidate =>
        simp [StunAttr.MAttr.value, StunAttr.MAttr.length,
          StunAttr.roundUpTo4]
  · intro t v hv
    subst hv
    rw [(StunAttr.to_bytes_parts _).1]
    rfl

/-- C6 witness: a five-byte USERNAME value is padded to eight, so the
TLV is twelve bytes, 4 plus the rounded length. -/
theorem C6_tlv_length_law_witness :
    (StunAttr.MAttr.username ['k', 'n', 'u', 't', 'h']).to_bytes.length =
      4 + StunAttr.roundUpTo4
        (StunAttr.MAttr.username ['k', 'n', 'u', 't', 'h']).length :=
  (C6_tlv_length_law (.username ['k', 'n', 'u', 't', 'h'])
      (fun buf h => by simp at h)).1
    (fun t v h => by simp at h)

/-- C6 counterexample: a one-byte ComprehensionOptional value serializes
to five bytes, not the eight the claim's rounding law demands. -/
theorem C6_comprehension_optional_unpadded :
    (StunAttr.MAttr.comprehensionOptional 0x8000 [0xAB]).to_bytes.length = 5 ∧
    4 + StunAttr.roundUpTo4
        (StunAttr.MAttr.comprehensionOptional 0x8000 [0xAB]).length = 8 := by
  decide

/-- C7: the responder's skip test — amended: the source skips only when
the method is not Binding AND the class is not Request, and the codec's
only method is Binding, so the conjunction never holds: the responder
replies to every parsed message with a USERNAME attribute, whatever its
class, and skips exactly the messages without one. -/
theorem C7_responder_replies_iff_username (m : Stun.Message) :
    Ice.sendsReply m = (Ice.firstUsername m.attributes).isSome := by
  obtain ⟨⟨cls, method, len, tid⟩, attrs⟩ := m
  cases method
  simp [Ice.sendsReply]

/-- C7 counterexample: a Binding Success message — class not Request —
with a USERNAME attribute is answered, not skipped. -/
theorem C7_binding_success_is_answered :
    Ice.sendsReply ⟨⟨.success, .binding, 0, Stun.tidC⟩,
      [.username ['a']]⟩ = true ∧
    Stun.Class.success ≠ Stun.Class.request := by
  decide

/-- C8: the monolithic parsers panic rather than fail: an unrecognized
method number, a FINGERPRINT with fewer than four value bytes, a
USERNAME whose value is not UTF-8, and an unimplemented
comprehension-required attribute type each hit `unimplemented!()` or a
panicking `unwrap`/`split_at`. -/
theorem C8_parsers_panic :
    Stun.message Stun.badMethodBytes = .panic ∧
    Stun.attributeP Stun.shortFingerprintBytes = .panic ∧
    Stun.attributeP Stun.badUtf8UsernameBytes = .panic ∧
    Stun.attributeP Stun.unknownRequiredBytes = .panic := by
  decide

/-- C9: transport token parsing — amended: `Transport::from_str` accepts
exactly the four tokens `udp`, `UDP`, `tcp`, `TCP`; every other token,
mixed-case spellings included, fails with `UnsupportedTransport`
carrying the token. -/
theorem C9_transport_exact_tokens :
    (Ice.Transport.from_str ['u', 'd', 'p'] = .ok .udp ∧
     Ice.Transport.from_str ['U', 'D', 'P'] = .ok .udp ∧
     Ice.Transport.from_str ['t', 'c', 'p'] = .ok .tcp ∧
     Ice.Transport.from_str ['T', 'C', 'P'] = .ok .tcp) ∧
    ∀ tok, tok ≠ ['u', 'd', 'p'] → tok ≠ ['U', 'D', 'P'] →
      tok ≠ ['t', 'c', 'p'] → tok ≠ ['T', 'C', 'P'] →
      Ice.Transport.from_str tok = .error (.unsupportedTransport tok) := by
  refine ⟨⟨rfl, rfl, rfl, rfl⟩, ?_⟩
  intro tok h1 h2 h3 h4
  simp [Ice.Transport.from_str, h1, h2, h3, h4]

/-- C9 counterexample: the mixed-case token `Udp` does not parse as UDP;
it fails with `UnsupportedTransport`. -/
theorem C9_mixed_case_rejected :
    Ice.Transport.from_str ['U', 'd', 'p'] =
      .error (.unsupportedTransport ['U', 'd', 'p']) := rfl

/-- C10: `add_remote_candidate` either appends exactly one candidate —
every other agent field and the existing remote-candidates prefix kept —
or propagates the conversion error, which leaves the agent as it was. -/
theorem C10_add_remote_candidate_appends_or_errors (a : Ice.Agent)
    (attr : Sdp.Attribute) :
    (∃ c, Ice.Agent.add_remote_candidate a attr =
        .ok { a with remote_candidates := a.remote_candidates ++ [c] }) ∨
    Ice.Agent.add_remote_candidate a attr = .error .invalidCandidate := by
  unfold Ice.Agent.add_remote_candidate Ice.RemoteCandidate.tryFrom
  cases h : NomC.all_consuming Ice.candidate_attribute
      (Sdp.Attribute.print attr) with
  | none => right; rfl
  | some cr =>
      obtain ⟨c, r⟩ := cr
      left
      exact ⟨c, rfl⟩

namespace Ice

/-- The name `candidate` as the sdp attribute key. -/
def candKey : List Char := ['c', 'a', 'n', 'd', 'i', 'd', 'a', 't', 'e']

/-- The candidate value of the repository's
`remote_candidate_from_attribute` test. -/
def candTestValue : List Char :=
  ['1', '8', '5', '3', '8', '8', '7', '6', '7', '4', ' ', '2', ' ', 'u',
   'd', 'p', ' ', '1', '5', '1', '8', '2', '8', '0', '4', '4', '7', ' ',
   '4', '7', '.', '6', '1', '.', '6', '1', '.', '6', '1', ' ', '3', '6',
   '7', '6', '8', ' ', 't', 'y', 'p', ' ', 's', 'r', 'f', 'l', 'x', ' ',
   'r', 'a', 'd', 'd', 'r', ' ', '1', '9', '2', '.', '1', '6', '8', '.',
   '0', '.', '1', '9', '6', ' ', 'r', 'p', 'o', 'r', 't', ' ', '3', '6',
   '7', '6', '8', ' ', 'g', 'e', 'n', 'e', 'r', 'a', 't', 'i', 'o', 'n',
   ' ', '0']

/-- The repository's `remote_candidate_from_attribute` test: the
attribute converts, keeping address 47.61.61.61:36768 and type srflx
(47.61.61.61 is the value 792542525). -/
theorem tryFrom_test_vector :
    RemoteCandidate.tryFrom (Sdp.Attribute.value candKey candTestValue) =
      .ok ⟨⟨792542525, 36768⟩, .serverReflexive⟩ := rfl

/-- The repository's `parse_header`/`serialize_header` tests: the
twenty-byte vector with message type 0x0101 is a Success Binding header
with length 0 and an all-zero transaction id, and serializing that
header returns the same bytes. -/
theorem header_test_vector :
    Stun.headerP ([0x01, 0x01, 0x00, 0x00] ++ Stun.u32be Stun.MAGIC_COOKIE ++
        [0, 0, 0, 0, 0, 0, 0, 0, 0, 0, 0, 0]) =
      .ok ⟨.success, .binding, 0, [0, 0, 0, 0, 0, 0, 0, 0, 0, 0, 0, 0]⟩ [] ∧
    Stun.Header.to_bytes ⟨.success, .binding, 0,
        [0, 0, 0, 0, 0, 0, 0, 0, 0, 0, 0, 0]⟩ =
      [0x01, 0x01, 0x00, 0x00] ++ Stun.u32be Stun.MAGIC_COOKIE ++
        [0, 0, 0, 0, 0, 0, 0, 0, 0, 0, 0, 0] := by
  decide

end Ice
